import Mathlib

/-!
# Verification of the `loom` deterministic event core (JITOS)

A shallow embedding, in Lean 4, of the determinism-critical parts of the
`loom` repository:

* `crates/jitos-core/src/canonical.rs` — the canonical CBOR codec
  (`enc_value` / `dec_value` and friends);
* `crates/jitos-core/src/events.rs`    — the event envelope, its
  constructors, store-backed validation and hardened deserialization;
* `crates/jitos-core/src/delta.rs`     — `DeltaSpec`;
* `crates/jitos-views/src/clock.rs`    — `ClockView`;
* `crates/jitos-views/src/timer.rs`    — `TimerView`;
* `crates/jitos-graph/src/ids.rs`      — `DeterministicIdAllocator`.

Modelling conventions:

* Rust machine integers (`u8`, `u64`, `u128`, `i128`) are modelled as
  `Nat` / `Int`; wherever the source performs a truncating `as` cast the
  embedding takes an explicit `% 2^w` (mostly built into `toBeBytes`).
* `f64` is modelled by its IEEE-754 binary64 bit pattern (a `Nat < 2^64`);
  the handful of float operations the codec uses (`is_nan`,
  `is_subnormal`, `fract() == 0.0`, the `i128` saturating cast, …) are
  defined as pure functions of the bit pattern.
* `Hash` (`[u8; 32]`, lexicographically ordered) is modelled as the `Nat`
  given by the big-endian value of the 32 bytes; for fixed-width byte
  arrays the Rust `Ord` coincides with the numeric order of that value.
* Byte sequences (`Vec<u8>`, `&[u8]`) are `List Nat` with entries < 256.
* Rust `Result<T, E>` is `Except E T`; fallible code never panics in the
  fragments embedded here (the single `unwrap` in `validate_event` sits
  behind a check that makes it infallible, see the comment there).
* `blake3::hash` is an external library primitive, not code of this
  repository; every definition that hashes is therefore parametrised by
  an arbitrary digest function `blake3 : List Nat → Nat`.  None of the
  claims proved below depends on any property of the digest itself.
-/

/-! ## Byte-level utilities -/

/-- Big-endian bytes of `n`, exactly `k` bytes wide.  Taking only the low
`8*k` bits is inherent, which is precisely the behaviour of the Rust
truncating casts (`n as u64`, …) composed with `to_be_bytes`. -/
def toBeBytes : Nat → Nat → List Nat
  | 0, _ => []
  | k + 1, n => toBeBytes k (n / 256) ++ [n % 256]

/-- Big-endian value of a byte string (the `u64` assembled by `take_u`). -/
def beNat (bytes : List Nat) : Nat :=
  bytes.foldl (fun a b => a * 256 + b) 0

/-- Lexicographic comparison of byte strings, as `Ord for Vec<u8>`. -/
def byteCmp : List Nat → List Nat → Ordering
  | [], [] => .eq
  | [], _ :: _ => .lt
  | _ :: _, [] => .gt
  | a :: as_, b :: bs =>
    if a < b then .lt else if b < a then .gt else byteCmp as_ bs

/-- Lexicographic `≤` on byte strings (used to sort map keys). -/
def byteLe (a b : List Nat) : Bool :=
  match byteCmp a b with
  | .gt => false
  | _ => true

/-- Insert `x` into `l` before the first element `y` with `le x y`. -/
def insertBy {α : Type} (le : α → α → Bool) (x : α) : List α → List α
  | [] => [x]
  | y :: ys => if le x y then x :: y :: ys else y :: insertBy le x ys

/-- Stable insertion sort; models the stable `Vec::sort_by` /
`sort_by_key` of the source (an element is placed before later elements
that compare equal to it, exactly as a stable sort leaves them). -/
def isortBy {α : Type} (le : α → α → Bool) : List α → List α
  | [] => []
  | x :: xs => insertBy le x (isortBy le xs)

/-- Numeric `≤` on hashes — the byte-lexicographic order of `[u8; 32]`. -/
def hashLe (a b : Nat) : Bool :=
  decide (a ≤ b)

/-- UTF-8 validity of a byte string, as checked by `str::from_utf8`
(rejects overlong forms, surrogates and code points above U+10FFFF). -/
def validUtf8 : List Nat → Bool
  | [] => true
  | b :: rest =>
    if b < 0x80 then validUtf8 rest
    else if b < 0xC2 then false
    else if b < 0xE0 then
      match rest with
      | c1 :: rest1 =>
        if 0x80 ≤ c1 ∧ c1 < 0xC0 then validUtf8 rest1 else false
      | [] => false
    else if b < 0xF0 then
      match rest with
      | c1 :: c2 :: rest2 =>
        let lo1 := if b = 0xE0 then 0xA0 else 0x80
        let hi1 := if b = 0xED then 0xA0 else 0xC0
        if lo1 ≤ c1 ∧ c1 < hi1 ∧ 0x80 ≤ c2 ∧ c2 < 0xC0 then validUtf8 rest2
        else false
      | _ => false
    else if b < 0xF5 then
      match rest with
      | c1 :: c2 :: c3 :: rest3 =>
        let lo1 := if b = 0xF0 then 0x90 else 0x80
        let hi1 := if b = 0xF4 then 0x90 else 0xC0
        if lo1 ≤ c1 ∧ c1 < hi1 ∧ 0x80 ≤ c2 ∧ c2 < 0xC0 ∧ 0x80 ≤ c3 ∧ c3 < 0xC0 then
          validUtf8 rest3
        else false
      | _ => false
    else false

/-- Byte string of an ASCII Lean string (all string literals appearing in
the embedded code are ASCII, where this agrees with UTF-8). -/
def ascii (s : String) : List Nat :=
  s.toList.map Char.toNat

/-! ## IEEE-754 binary64 helpers

`f64` values are their 64-bit patterns.  Field extraction, classification
and the two conversions the codec needs are pure functions of the bits. -/

def f64_exp (bits : Nat) : Nat := bits / 2 ^ 52 % 2 ^ 11

def f64_mant (bits : Nat) : Nat := bits % 2 ^ 52

def f64_sign (bits : Nat) : Nat := bits / 2 ^ 63 % 2

def f64_is_nan (bits : Nat) : Bool :=
  f64_exp bits = 2047 ∧ f64_mant bits ≠ 0

def f64_is_subnormal (bits : Nat) : Bool :=
  f64_exp bits = 0 ∧ f64_mant bits ≠ 0

def f64_is_zero (bits : Nat) : Bool :=
  f64_exp bits = 0 ∧ f64_mant bits = 0

def f64_is_finite (bits : Nat) : Bool :=
  f64_exp bits ≠ 2047

/-- `canonicalize_f64` from `canonical.rs`: NaN ↦ quiet NaN with zero
payload, subnormals and ±0 ↦ +0, everything else unchanged. -/
def canonicalize_f64 (bits : Nat) : Nat :=
  if f64_is_nan bits then 0x7FF8000000000000
  else if f64_is_subnormal bits then 0
  else if f64_is_zero bits then 0
  else bits

/-- `f.fract() == 0.0`: the value is finite and integral (±0 included).
A finite double with biased exponent `e` and mantissa `m` has value
`±(2^52 + m) · 2^(e - 1075)` (normal) or `±m · 2^(-1074)` (subnormal), so
integrality is divisibility of the significand by `2^(1075 - e)`. -/
def f64_fract_zero (bits : Nat) : Bool :=
  f64_is_finite bits ∧
    (if 1075 ≤ f64_exp bits then true
     else if f64_exp bits = 0 then f64_mant bits = 0
     else (2 ^ 52 + f64_mant bits) % 2 ^ (1075 - f64_exp bits) = 0)

/-- `fits_i128`: `(i128::MIN as f64 ..= i128::MAX as f64).contains(&f)`.
`i128::MAX as f64` rounds to `2^127` and `i128::MIN as f64` is `-2^127`
exactly, so this is `|f| ≤ 2^127`; in terms of the bit fields that is
`e < 1150 ∨ (e = 1150 ∧ m = 0)`.  NaN and ±∞ compare `false`. -/
def fits_i128 (bits : Nat) : Bool :=
  f64_is_finite bits ∧
    (f64_exp bits < 1150 ∨ (f64_exp bits = 1150 ∧ f64_mant bits = 0))

/-- `float_should_be_int` from `canonical.rs`. -/
def float_should_be_int (bits : Nat) : Bool :=
  f64_is_finite bits ∧ f64_fract_zero bits ∧ fits_i128 bits

/-- Exact integer value of an integral finite double. -/
def f64_int_val (bits : Nat) : Int :=
  let mag : Nat :=
    if f64_exp bits = 0 then 0
    else if 1075 ≤ f64_exp bits then
      (2 ^ 52 + f64_mant bits) * 2 ^ (f64_exp bits - 1075)
    else (2 ^ 52 + f64_mant bits) / 2 ^ (1075 - f64_exp bits)
  if f64_sign bits = 1 then -(mag : Int) else (mag : Int)

/-- The Rust cast `f as i128` (saturating) for an integral finite `f`. -/
def i128_sat_of_f64 (bits : Nat) : Int :=
  let v := f64_int_val bits
  if v > 2 ^ 127 - 1 then 2 ^ 127 - 1
  else if v < -(2 ^ 127) then -(2 ^ 127)
  else v

/-- The encoder's round-trip test `(f as i128) as f64 == f` for an
integral finite `f`.  If `|f| ≤ 2^127` the saturated integer converts
back to `f` exactly (`i128::MAX` rounds up to `2^127`, which recovers the
single boundary value `2^127`); any larger magnitude saturates to
`±2^127∓…` and converts back to `±2^127 ≠ f`. -/
def i128_as_f64_roundtrips (bits : Nat) : Bool :=
  f64_exp bits < 1150 ∨ (f64_exp bits = 1150 ∧ f64_mant bits = 0)

/-! ## Canonical CBOR codec (`canonical.rs`) -/

/-- `CanonicalError` from `canonical.rs`. -/
inductive CanonicalError where
  | Incomplete
  | Trailing
  | Tag
  | Indefinite
  | NonCanonicalInt
  | NonCanonicalFloat
  | FloatShouldBeInt
  | MapKeyOrder
  | DuplicateKey
  | Decode (msg : String)
deriving DecidableEq, Repr

/-- `ciborium::value::Value`.  `text` carries the UTF-8 bytes of the Rust
`String` (for valid UTF-8, `str::from_utf8` followed by `as_bytes` is the
identity on bytes, so this loses nothing). -/
inductive Value where
  | bool (b : Bool)
  | null
  | int (n : Int)
  | float (bits : Nat)
  | text (s : List Nat)
  | bytes (b : List Nat)
  | array (items : List Value)
  | map (entries : List (Value × Value))
  | tag (t : Nat) (content : Value)

/-- `write_major` from `canonical.rs`.  In the final arm the source
truncates with `n as u64`; `toBeBytes 8` performs the same truncation. -/
def write_major (major : Nat) (n : Nat) : List Nat :=
  if n ≤ 23 then [major * 32 + n]
  else if n ≤ 0xff then (major * 32 + 24) :: toBeBytes 1 n
  else if n ≤ 0xffff then (major * 32 + 25) :: toBeBytes 2 n
  else if n ≤ 0xffffffff then (major * 32 + 26) :: toBeBytes 4 n
  else (major * 32 + 27) :: toBeBytes 8 n

/-- `enc_len` (the `len as u64` cast is exact: lengths are below `2^64`). -/
def enc_len (major : Nat) (len : Nat) : List Nat :=
  write_major major len

/-- `enc_int` over `i128`. -/
def enc_int (n : Int) : List Nat :=
  if 0 ≤ n then write_major 0 n.toNat
  else write_major 1 (-1 - n).toNat

/-- `enc_float` from `canonical.rs`: canonicalize, then encode integral
in-range values as integers, everything else as a 64-bit float. -/
def enc_float (bits : Nat) : List Nat :=
  let cf := canonicalize_f64 bits
  if f64_fract_zero cf ∧ f64_is_finite cf then
    if i128_as_f64_roundtrips cf then enc_int (i128_sat_of_f64 cf)
    else 0xfb :: toBeBytes 8 cf
  else 0xfb :: toBeBytes 8 cf

/-- Adjacent duplicate among the (sorted) encoded keys — the
`buf.windows(2)` check in `enc_value`. -/
def dupAdjacentFrom (prev : List Nat) : List (List Nat) → Bool
  | [] => false
  | b :: rest => prev = b ∨ dupAdjacentFrom b rest

def dupAdjacent : List (List Nat) → Bool
  | [] => false
  | a :: rest => dupAdjacentFrom a rest

mutual

/-- `enc_value` from `canonical.rs`.

For maps the source encodes all keys (in entry order), sorts the
`(key bytes, value)` pairs, rejects adjacent duplicate keys, and only
then encodes the values in sorted-key order.  Here the values are
encoded *after* the duplicate check but still in entry order, and the
already-encoded pairs are sorted afterwards; since every possible
value-encoding failure is `CanonicalError.Tag` and equal keys have
already been rejected (so the stable sort admits a unique result), the
two formulations return identical results on every input. -/
def enc_value : Value → Except CanonicalError (List Nat)
  | .bool b => .ok [if b then 0xf5 else 0xf4]
  | .null => .ok [0xf6]
  | .int n => .ok (enc_int n)
  | .float bits => .ok (enc_float bits)
  | .text s => .ok (enc_len 3 s.length ++ s)
  | .bytes b => .ok (enc_len 2 b.length ++ b)
  | .array items => do
    let body ← enc_seq items
    .ok (enc_len 4 items.length ++ body)
  | .map entries => do
    let kbs ← enc_keys entries
    if dupAdjacent (isortBy byteLe kbs) then .error .DuplicateKey
    else do
      let vbs ← enc_vals entries
      let sorted := isortBy (fun a b => byteLe a.1 b.1) (kbs.zip vbs)
      .ok (enc_len 5 entries.length ++ (sorted.map (fun p => p.1 ++ p.2)).flatten)
  | .tag _ _ => .error .Tag

/-- Encode the items of an array in order. -/
def enc_seq : List Value → Except CanonicalError (List Nat)
  | [] => .ok []
  | v :: rest => do
    let b ← enc_value v
    let r ← enc_seq rest
    .ok (b ++ r)

/-- Encode the keys of a map in entry order. -/
def enc_keys : List (Value × Value) → Except CanonicalError (List (List Nat))
  | [] => .ok []
  | (k, _) :: rest => do
    let kb ← enc_value k
    let r ← enc_keys rest
    .ok (kb :: r)

/-- Encode the values of a map in entry order. -/
def enc_vals : List (Value × Value) → Except CanonicalError (List (List Nat))
  | [] => .ok []
  | (_, v) :: rest => do
    let vb ← enc_value v
    let r ← enc_vals rest
    .ok (vb :: r)

end

/-- `encode_value` (the `Vec` wrapper in the source adds nothing). -/
def encode_value (v : Value) : Except CanonicalError (List Nat) :=
  enc_value v

/-- `take_u` from `canonical.rs`: on truncated input it returns `0`
*without* consuming anything ("will be caught as incomplete later" —
which, as proved below, is not always true). -/
def take_u (len : Nat) (bytes : List Nat) : Nat × List Nat :=
  if bytes.length < len then (0, bytes)
  else (beNat (bytes.take len), bytes.drop len)

/-- `check_min_int` from `canonical.rs`. -/
def check_min_int (ai n : Nat) (strict : Bool) : Except CanonicalError Unit :=
  if !strict then .ok ()
  else
    let min_ok : Bool :=
      if ai ≤ 23 then true
      else if ai = 24 then 24 ≤ n
      else if ai = 25 then 0xff < n
      else if ai = 26 then 0xffff < n
      else if ai = 27 then 0xffffffff < n
      else false
    if min_ok then .ok () else .error .NonCanonicalInt

/-- The item loop of the array branch of `dec_value`, parametrised by
the decoder for one value (`dec_value` at the next fuel level). -/
def dec_items (dec : Bool → List Nat → Except CanonicalError (Value × List Nat))
    (strict : Bool) : Nat → List Nat → Except CanonicalError (List Value × List Nat)
  | 0, bytes => .ok ([], bytes)
  | n + 1, bytes => do
    let vr ← dec strict bytes
    let r ← dec_items dec strict n vr.2
    .ok (vr.1 :: r.1, r.2)

/-- The entry loop of the map branch of `dec_value`: each key must be
strictly greater (by its raw encoded bytes) than the previous one, and
the ordering check runs after decoding the key, before its value. -/
def dec_pairs (dec : Bool → List Nat → Except CanonicalError (Value × List Nat))
    (strict : Bool) : Nat → Option (List Nat) → List Nat →
    Except CanonicalError (List (Value × Value) × List Nat)
  | 0, _, bytes => .ok ([], bytes)
  | n + 1, prev, bytes => do
    let kr ← dec strict bytes
    let kb := bytes.take (bytes.length - kr.2.length)
    match prev with
    | some pb =>
      match byteCmp pb kb with
      | .lt => do
        let vr ← dec strict kr.2
        let er ← dec_pairs dec strict n (some kb) vr.2
        .ok ((kr.1, vr.1) :: er.1, er.2)
      | .eq => .error .DuplicateKey
      | .gt => .error .MapKeyOrder
    | none => do
      let vr ← dec strict kr.2
      let er ← dec_pairs dec strict n (some kb) vr.2
      .ok ((kr.1, vr.1) :: er.1, er.2)

/-- `dec_value` from `canonical.rs`, in consuming style: instead of an
index into the byte slice it returns the unconsumed suffix.  The extra
fuel argument only serves Lean's termination checker; `decode_value`
supplies `length + 1`, which can never run out: fuel decreases only when
recursing into the elements of an array or map, whose header consumed at
least one byte, so the nesting depth — and with it the fuel consumed on
any path — is bounded by the number of bytes. -/
def dec_value : Nat → Bool → List Nat → Except CanonicalError (Value × List Nat)
  | _, _, [] => .error .Incomplete
  | 0, _, _ :: _ => .error (.Decode "recursion depth")
  | fuel + 1, strict, b0 :: rest =>
    let major := b0 / 32
    let ai := b0 % 32
    if major = 6 then .error .Tag
    else if ai = 31 then .error .Indefinite
    else if major = 7 then
      if ai = 20 then .ok (.bool false, rest)
      else if ai = 21 then .ok (.bool true, rest)
      else if ai = 22 ∨ ai = 23 then .ok (.null, rest)
      else if ai = 24 then .error (.Decode "simple value not supported")
      else if ai = 25 ∨ ai = 26 then .error .NonCanonicalFloat
      else if ai = 27 then
        if rest.length < 8 then .error .Incomplete
        else
          let bits := beNat (rest.take 8)
          if strict ∧ float_should_be_int bits then .error .FloatShouldBeInt
          else if strict ∧ canonicalize_f64 bits ≠ bits then .error .NonCanonicalFloat
          else .ok (.float bits, rest.drop 8)
      else .error (.Decode "unknown simple or float")
    else if 28 ≤ ai then .error (.Decode "invalid additional info")
    else
      let nr :=
        if ai ≤ 23 then (ai, rest)
        else if ai = 24 then take_u 1 rest
        else if ai = 25 then take_u 2 rest
        else if ai = 26 then take_u 4 rest
        else take_u 8 rest
      let n := nr.1
      let rest1 := nr.2
      if major = 0 then do
        check_min_int ai n strict
        .ok (.int (n : Int), rest1)
      else if major = 1 then do
        check_min_int ai n strict
        .ok (.int (-1 - (n : Int)), rest1)
      else if major = 2 then
        if rest1.length < n then .error .Incomplete
        else .ok (.bytes (rest1.take n), rest1.drop n)
      else if major = 3 then
        if rest1.length < n then .error .Incomplete
        else if validUtf8 (rest1.take n) then .ok (.text (rest1.take n), rest1.drop n)
        else .error (.Decode "invalid utf-8")
      else if major = 4 then do
        let ir ← dec_items (dec_value fuel) strict n rest1
        .ok (.array ir.1, ir.2)
      else do
        let er ← dec_pairs (dec_value fuel) strict n none rest1
        .ok (.map er.1, er.2)

/-- `decode_value` from `canonical.rs`: decode one value in strict mode
and reject trailing bytes. -/
def decode_value (bytes : List Nat) : Except CanonicalError Value := do
  let vr ← dec_value (bytes.length + 1) true bytes
  if vr.2.isEmpty then .ok vr.1 else .error .Trailing

/-! ## Event envelope and DAG (`events.rs`) -/

/-- `Hash` (`jitos-core/src/lib.rs`): a 32-byte BLAKE3 digest.  Modelled
as the big-endian numeric value of the bytes; for fixed-width arrays the
derived lexicographic `Ord` agrees with this numeric order. -/
abbrev Hash := Nat

/-- `EventId = Hash`. -/
abbrev EventId := Hash

/-- `EventKind` from `events.rs`. -/
inductive EventKind where
  | Observation
  | PolicyContext
  | Decision
  | Commit
deriving DecidableEq, Repr

/-- `EventError` from `events.rs`. -/
inductive EventError where
  | CanonicalError (e : CanonicalError)
  | InvalidStructure (msg : String)
  | ValidationError (msg : String)
deriving DecidableEq, Repr

/-- `EventEnvelope` from `events.rs`.  `AgentId` is its non-empty string
(validity is enforced by constructors/deserialization, not by the type),
`Signature` its non-empty byte sequence, and the payload the raw bytes of
the `CanonicalBytes` wrapper. -/
structure EventEnvelope where
  event_id : EventId
  kind : EventKind
  payload : List Nat
  parents : List EventId
  agent_id : Option String
  signature : Option (List Nat)
  observation_type : Option String
deriving DecidableEq, Repr

/-- serde encodes `Hash(pub [u8; 32])` as the inner 32-element array
(arrays serialize as sequences of their `u8` entries). -/
def hashValue (h : Hash) : Value :=
  .array ((toBeBytes 32 h).map (fun b => .int b))

/-- serde encodes the internally-tagged `EventKind` (`#[serde(tag =
"type")]`) as the single-entry map with key `type`. -/
def kindValue : EventKind → Value
  | .Observation => .map [(.text (ascii "type"), .text (ascii "Observation"))]
  | .PolicyContext => .map [(.text (ascii "type"), .text (ascii "PolicyContext"))]
  | .Decision => .map [(.text (ascii "type"), .text (ascii "Decision"))]
  | .Commit => .map [(.text (ascii "type"), .text (ascii "Commit"))]

/-- The `EventIdInput` struct serialized by `compute_event_id`: a map of
its three fields; `payload: &[u8]` serializes as a sequence of `u8`s. -/
def eventIdInput (kind : EventKind) (payload : List Nat) (parents : List EventId) : Value :=
  .map [(.text (ascii "kind"), kindValue kind),
        (.text (ascii "payload"), .array (payload.map (fun b => .int b))),
        (.text (ascii "parents"), .array (parents.map hashValue))]

/-- `EventEnvelope::compute_event_id`: hash of the canonical encoding of
`(kind, payload bytes, parents)`; the digest function is a parameter
(`blake3::hash` in the source). -/
def compute_event_id (blake3 : List Nat → Nat) (kind : EventKind)
    (payload : List Nat) (parents : List EventId) : Except CanonicalError EventId := do
  let canonical_bytes ← encode_value (eventIdInput kind payload parents)
  .ok (blake3 canonical_bytes)

/-- Ordered insertion without duplicates — one `BTreeSet` insert. -/
def sinsert (x : Hash) : List Hash → List Hash
  | [] => [x]
  | y :: ys => if x < y then x :: y :: ys else if x = y then y :: ys else y :: sinsert x ys

/-- `EventEnvelope::canonicalize_parents`: collect into a `BTreeSet` and
read it back out, i.e. sort ascending and drop duplicates. -/
def canonicalize_parents (parents : List EventId) : List EventId :=
  parents.foldl (fun acc x => sinsert x acc) []

/-- `EventEnvelope::new_observation`. -/
def new_observation (blake3 : List Nat → Nat) (payload : List Nat)
    (parents : List EventId) (observation_type : Option String)
    (agent_id : Option String) (signature : Option (List Nat)) :
    Except EventError EventEnvelope :=
  let parents := canonicalize_parents parents
  match compute_event_id blake3 .Observation payload parents with
  | .error e => .error (.CanonicalError e)
  | .ok event_id =>
    .ok { event_id, kind := .Observation, payload, parents, agent_id, signature,
          observation_type }

/-- `EventEnvelope::new_policy_context`. -/
def new_policy_context (blake3 : List Nat → Nat) (payload : List Nat)
    (parents : List EventId) (agent_id : Option String)
    (signature : Option (List Nat)) : Except EventError EventEnvelope :=
  let parents := canonicalize_parents parents
  match compute_event_id blake3 .PolicyContext payload parents with
  | .error e => .error (.CanonicalError e)
  | .ok event_id =>
    .ok { event_id, kind := .PolicyContext, payload, parents, agent_id, signature,
          observation_type := none }

/-- `EventEnvelope::new_decision`. -/
def new_decision (blake3 : List Nat → Nat) (payload : List Nat)
    (evidence_parents : List EventId) (policy_parent : EventId)
    (agent_id : Option String) (signature : Option (List Nat)) :
    Except EventError EventEnvelope :=
  if evidence_parents.isEmpty then
    .error (.InvalidStructure "Decision must have at least one evidence parent")
  else if evidence_parents.contains policy_parent then
    .error (.InvalidStructure "policy_parent must not be included in evidence_parents")
  else
    let parents := canonicalize_parents (evidence_parents ++ [policy_parent])
    match compute_event_id blake3 .Decision payload parents with
    | .error e => .error (.CanonicalError e)
    | .ok event_id =>
      .ok { event_id, kind := .Decision, payload, parents, agent_id, signature,
            observation_type := none }

/-- `EventEnvelope::new_commit` (signature is a required argument). -/
def new_commit (blake3 : List Nat → Nat) (payload : List Nat)
    (decision_parent : EventId) (extra_parents : List EventId)
    (agent_id : Option String) (signature : List Nat) :
    Except EventError EventEnvelope :=
  let parents := canonicalize_parents (extra_parents ++ [decision_parent])
  match compute_event_id blake3 .Commit payload parents with
  | .error e => .error (.CanonicalError e)
  | .ok event_id =>
    .ok { event_id, kind := .Commit, payload, parents, agent_id,
          signature := some signature, observation_type := none }

/-- `EventEnvelope::verify_event_id`. -/
def verify_event_id (blake3 : List Nat → Nat) (e : EventEnvelope) :
    Except CanonicalError Bool := do
  let computed ← compute_event_id blake3 e.kind e.payload e.parents
  .ok (computed = e.event_id)

/-- `is_genesis`. -/
def EventEnvelope.is_genesis (e : EventEnvelope) : Bool :=
  e.parents.isEmpty

/-- The `windows(2).all(|w| w[0] < w[1])` check (Rules 2 of
`validate_event` and Validation 2 of `Deserialize`): adjacent entries
strictly increase, hence the list is sorted and duplicate-free. -/
def strictlyIncreasingFrom (prev : Hash) : List Hash → Bool
  | [] => true
  | b :: rest => prev < b ∧ strictlyIncreasingFrom b rest

def strictlyIncreasing : List Hash → Bool
  | [] => true
  | a :: rest => strictlyIncreasingFrom a rest

/-- An `EventStore` is its lookup function `get`. -/
def EventStore := EventId → Option EventEnvelope

/-- The Rule-3 loop of `validate_event`: count parents resolving to a
`PolicyContext`, and remember whether some parent resolved to anything
else.  (The loop body in the source `unwrap`s the lookup; Rule 2.5 has
already established that every parent resolves, so the `none` arm here
is unreachable and leaves the accumulator unchanged.) -/
def policyScan (store : EventStore) (parents : List EventId) : Nat × Bool :=
  parents.foldl
    (fun acc p =>
      match store p with
      | some parent =>
        if parent.kind = .PolicyContext then (acc.1 + 1, acc.2) else (acc.1, true)
      | none => acc)
    (0, false)

/-- The Rule-4 loop of `validate_event`: some parent resolves to a
`Decision`.  (Same remark about the unreachable `none` arm.) -/
def hasDecisionParent (store : EventStore) (parents : List EventId) : Bool :=
  parents.any (fun p =>
    match store p with
    | some parent => parent.kind = .Decision
    | none => false)

/-- `validate_event` from `events.rs`. -/
def validate_event (blake3 : List Nat → Nat) (e : EventEnvelope)
    (store : EventStore) : Except EventError Unit :=
  -- Rule 1: event ID matches the recomputed hash
  match verify_event_id blake3 e with
  | .error ce => .error (.CanonicalError ce)
  | .ok false => .error (.ValidationError "Event ID does not match computed hash")
  | .ok true =>
    -- Rule 2: parents canonical (sorted, unique)
    if ¬ strictlyIncreasing e.parents then
      .error (.ValidationError "Parents are not canonically sorted or deduplicated")
    -- Rule 2.5: all parents resolve in the store
    else if ¬ e.parents.all (fun p => (store p).isSome) then
      .error (.ValidationError "event references unknown parent")
    -- Rule 3: a Decision has exactly one PolicyContext parent and evidence
    else if e.kind = .Decision ∧ (policyScan store e.parents).1 ≠ 1 then
      .error (.ValidationError "Decision must have exactly one PolicyContext parent")
    else if e.kind = .Decision ∧ ¬ (policyScan store e.parents).2 ∧ e.parents.length = 1 then
      .error (.ValidationError "Decision must have evidence parents in addition to policy")
    -- Rule 4: a Commit has at least one Decision parent
    else if e.kind = .Commit ∧ ¬ hasDecisionParent store e.parents then
      .error (.ValidationError "Commit must have at least one Decision parent")
    -- Rule 5: a Commit has a signature
    else if e.kind = .Commit ∧ e.signature.isNone then
      .error (.ValidationError "Commit must have a signature")
    else .ok ()

/-! ### Hardened deserialization (`impl Deserialize for EventEnvelope`)

A byte stream that parses at all yields the field record
`RawEventEnvelope`; the custom `Deserialize` impls then validate.  The
field-level validators (`CanonicalBytes` canonicality, non-empty
`AgentId`, non-empty `Signature`) run while the raw record is read, the
envelope-level validations (hash match, canonical parents,
Commit-needs-signature) afterwards.  The embedding starts from the raw
record and performs the same checks; their relative order does not
matter for any property proved below, since each failure is required
only to produce *some* decode error. -/

/-- The `RawEventEnvelope` helper struct, with the three custom-validated
field types still in raw form. -/
structure RawEventEnvelope where
  event_id : EventId
  kind : EventKind
  payload : List Nat
  parents : List EventId
  agent_id : Option String
  signature : Option (List Nat)
  observation_type : Option String
deriving DecidableEq, Repr

/-- `CanonicalBytes::validate_canonical`: decode to a `ciborium::Value`
and require the canonical re-encoding to reproduce the bytes exactly. -/
def validate_canonical (bytes : List Nat) : Bool :=
  match decode_value bytes with
  | .error _ => false
  | .ok v =>
    match encode_value v with
    | .error _ => false
    | .ok reencoded => reencoded = bytes

/-- The deserialization pipeline of `EventEnvelope` (field validators
plus Validations 1–3 of the custom `Deserialize` impl). -/
def deserialize_envelope (blake3 : List Nat → Nat) (raw : RawEventEnvelope) :
    Except String EventEnvelope :=
  -- field validator of `CanonicalBytes`
  if ¬ validate_canonical raw.payload then
    .error "Payload bytes are not canonical CBOR"
  -- field validator of `AgentId`
  else if raw.agent_id = some "" then .error "AgentId cannot be empty"
  -- field validator of `Signature`
  else if raw.signature = some [] then .error "Signature cannot be empty"
  else
    -- Validation 1: recompute the event id
    match compute_event_id blake3 raw.kind raw.payload raw.parents with
    | .error _ => .error "canonical encoding error"
    | .ok computed_id =>
      if raw.event_id ≠ computed_id then .error "Tampered event_id"
      -- Validation 2: parents sorted and unique
      else if ¬ strictlyIncreasing raw.parents then
        .error "Parents must be canonically sorted and deduplicated"
      -- Validation 3: Commit events must have a signature
      else if raw.kind = .Commit ∧ raw.signature.isNone then
        .error "Commit event must have a signature"
      else
        .ok { event_id := raw.event_id, kind := raw.kind, payload := raw.payload,
              parents := raw.parents, agent_id := raw.agent_id,
              signature := raw.signature, observation_type := raw.observation_type }

/-! ## DeltaSpec (`delta.rs`) -/

/-- `DeltaKind` from `delta.rs`.  `InputEvent` is its single `u64`
placeholder field; `AgentId` trust roots are their strings. -/
inductive DeltaKind where
  | SchedulerPolicy (new_policy : Hash)
  | InputMutation (insert : List Nat) (delete : List EventId) (modify : List (EventId × Nat))
  | ClockPolicy (new_policy : Hash)
  | TrustPolicy (new_trust_roots : List String)
deriving DecidableEq, Repr

/-- `DeltaError` from `delta.rs`. -/
inductive DeltaError where
  | InvalidEventRef (id : EventId)
  | InvalidHash
  | InvalidStructure (msg : String)
  | CanonicalError (e : CanonicalError)
deriving DecidableEq, Repr

/-- `DeltaSpec` from `delta.rs`. -/
structure DeltaSpec where
  kind : DeltaKind
  description : String
  hash : Hash
deriving DecidableEq, Repr

/-- serde encodes the adjacently-tagged `DeltaKind` (`#[serde(tag =
"type", content = "data")]`) as a two-entry map; an `InputEvent` as the
map of its one field; the `(EventId, InputEvent)` tuples as 2-arrays. -/
def inputEventValue (placeholder : Nat) : Value :=
  .map [(.text (ascii "placeholder"), .int placeholder)]

def deltaKindValue : DeltaKind → Value
  | .SchedulerPolicy new_policy =>
    .map [(.text (ascii "type"), .text (ascii "SchedulerPolicy")),
          (.text (ascii "data"), .map [(.text (ascii "new_policy"), hashValue new_policy)])]
  | .InputMutation insert delete modify =>
    .map [(.text (ascii "type"), .text (ascii "InputMutation")),
          (.text (ascii "data"),
           .map [(.text (ascii "insert"), .array (insert.map inputEventValue)),
                 (.text (ascii "delete"), .array (delete.map hashValue)),
                 (.text (ascii "modify"),
                  .array (modify.map (fun p => .array [hashValue p.1, inputEventValue p.2])))])]
  | .ClockPolicy new_policy =>
    .map [(.text (ascii "type"), .text (ascii "ClockPolicy")),
          (.text (ascii "data"), .map [(.text (ascii "new_policy"), hashValue new_policy)])]
  | .TrustPolicy new_trust_roots =>
    .map [(.text (ascii "type"), .text (ascii "TrustPolicy")),
          (.text (ascii "data"),
           .map [(.text (ascii "new_trust_roots"),
                  .array (new_trust_roots.map (fun r => .text (ascii r))))])]

/-- `DeltaSpec::compute_hash`: hash of the canonical encoding of the
tuple `(kind, description)` — the `hash` field itself is not hashed. -/
def DeltaSpec.compute_hash (blake3 : List Nat → Nat) (spec : DeltaSpec) :
    Except CanonicalError Hash := do
  let bytes ← encode_value (.array [deltaKindValue spec.kind, .text (ascii spec.description)])
  .ok (blake3 bytes)

/-- `DeltaSpec::finalize`. -/
def DeltaSpec.finalize (blake3 : List Nat → Nat) (spec : DeltaSpec) :
    Except CanonicalError DeltaSpec := do
  let h ← spec.compute_hash blake3
  .ok { spec with hash := h }

/-- `DeltaSpec::new_scheduler_policy` (the temporary hash is the zero
digest `Hash([0u8; 32])`). -/
def new_scheduler_policy (blake3 : List Nat → Nat) (new_policy : Hash)
    (description : String) : Except CanonicalError DeltaSpec :=
  DeltaSpec.finalize blake3 { kind := .SchedulerPolicy new_policy, description, hash := 0 }

/-- `DeltaSpec::new_clock_policy`. -/
def new_clock_policy (blake3 : List Nat → Nat) (new_policy : Hash)
    (description : String) : Except CanonicalError DeltaSpec :=
  DeltaSpec.finalize blake3 { kind := .ClockPolicy new_policy, description, hash := 0 }

/-- `DeltaSpec::new_trust_policy`; rejects an empty trust-root list.
(The source message quotes the words trust no one; the quotation marks
are dropped here.) -/
def new_trust_policy (blake3 : List Nat → Nat) (new_trust_roots : List String)
    (description : String) : Except DeltaError DeltaSpec :=
  if new_trust_roots.isEmpty then
    .error (.InvalidStructure
      "TrustPolicy cannot have empty new_trust_roots (would mean trust no one)")
  else
    match DeltaSpec.finalize blake3
        { kind := .TrustPolicy new_trust_roots, description, hash := 0 } with
    | .ok spec => .ok spec
    | .error e => .error (.CanonicalError e)

/-- `DeltaSpec::new_input_mutation`. -/
def new_input_mutation (blake3 : List Nat → Nat) (insert : List Nat)
    (delete : List EventId) (modify : List (EventId × Nat)) (description : String) :
    Except CanonicalError DeltaSpec :=
  DeltaSpec.finalize blake3 { kind := .InputMutation insert delete modify, description, hash := 0 }

/-! ## Payload parsing for the views

`payload().to_value::<T>()` is `canonical::decode`: strict
`decode_value` followed by serde deserialization of the resulting
`ciborium::Value`.  The derived deserializers accept a map whose text
keys carry the struct fields — in any order, each at most once, unknown
keys ignored — which is the shape the canonical encoder produces. -/

/-- serde `u64` from a `ciborium::Value`. -/
def parse_u64 : Value → Option Nat
  | .int n => if 0 ≤ n ∧ n < 2 ^ 64 then some n.toNat else none
  | _ => none

/-- serde `[u8; 32]` (a `Hash`) from the 32-element integer array the
canonical encoder produces for it. -/
def parse_u8 : Value → Option Nat
  | .int n => if 0 ≤ n ∧ n < 256 then some n.toNat else none
  | _ => none

def parse_hash : Value → Option Hash
  | .array items =>
    if items.length = 32 then (items.mapM parse_u8).map beNat else none
  | _ => none

/-! ## ClockView (`clock.rs`) -/

/-- `OBS_CLOCK_SAMPLE_V0` tag constant. -/
def OBS_CLOCK_SAMPLE_V0 : String := "OBS_CLOCK_SAMPLE_V0"

/-- `ClockSource` from `clock.rs`. -/
inductive ClockSource where
  | Monotonic
  | Rtc
  | Ntp
  | PeerClaim
deriving DecidableEq, Repr

/-- `ClockSample` from `clock.rs`. -/
structure ClockSample where
  source : ClockSource
  value_ns : Nat
  uncertainty_ns : Nat
deriving DecidableEq, Repr

/-- `ClockSampleRecord`. -/
structure ClockSampleRecord where
  event_id : Hash
  sample : ClockSample
deriving DecidableEq, Repr

/-- `TimeDomain` from `clock.rs`. -/
inductive TimeDomain where
  | Monotonic
  | Unix
  | Unknown
deriving DecidableEq, Repr

/-- `Time` from `clock.rs`. -/
structure Time where
  ns : Nat
  uncertainty_ns : Nat
  domain : TimeDomain
  provenance : List Hash
deriving DecidableEq, Repr

/-- `Time::unknown()`: `(0, u64::MAX, Unknown, [])`. -/
def Time.unknown : Time :=
  { ns := 0, uncertainty_ns := 2 ^ 64 - 1, domain := .Unknown, provenance := [] }

/-- `LatestSamples`. -/
structure LatestSamples where
  monotonic : Option ClockSampleRecord
  ntp : Option ClockSampleRecord
  rtc : Option ClockSampleRecord
  peer : Option ClockSampleRecord
deriving DecidableEq, Repr

/-- `ClockPolicyId`. -/
inductive ClockPolicyId where
  | TrustMonotonicLatest
  | TrustNtpLatest
deriving DecidableEq, Repr

/-- `ClockError` from `clock.rs`. -/
inductive ClockError where
  | CutOutOfBounds (cut : Nat) (len : Nat)
deriving DecidableEq, Repr

/-- `ClockView`. -/
structure ClockView where
  samples : List ClockSampleRecord
  latest : LatestSamples
  current : Time
  policy : ClockPolicyId
deriving DecidableEq, Repr

/-- `ClockView::new`. -/
def ClockView.new (policy : ClockPolicyId) : ClockView :=
  { samples := [], latest := { monotonic := none, ntp := none, rtc := none, peer := none },
    current := Time.unknown, policy }

/-- `ClockSource` unit variants deserialize from their name strings. -/
def parse_clock_source : Value → Option ClockSource
  | .text s =>
    if s = ascii "Monotonic" then some .Monotonic
    else if s = ascii "Rtc" then some .Rtc
    else if s = ascii "Ntp" then some .Ntp
    else if s = ascii "PeerClaim" then some .PeerClaim
    else none
  | _ => none

/-- Field collection of the derived `ClockSample` deserializer. -/
def parse_clock_sample_fields : List (Value × Value) → Option ClockSource →
    Option Nat → Option Nat → Option ClockSample
  | [], some source, some value_ns, some uncertainty_ns =>
    some { source, value_ns, uncertainty_ns }
  | [], _, _, _ => none
  | (k, val) :: rest, src, v, u =>
    match k with
    | .text key =>
      if key = ascii "source" then
        match src, parse_clock_source val with
        | none, some s => parse_clock_sample_fields rest (some s) v u
        | _, _ => none
      else if key = ascii "value_ns" then
        match v, parse_u64 val with
        | none, some n => parse_clock_sample_fields rest src (some n) u
        | _, _ => none
      else if key = ascii "uncertainty_ns" then
        match u, parse_u64 val with
        | none, some n => parse_clock_sample_fields rest src v (some n)
        | _, _ => none
      else parse_clock_sample_fields rest src v u
    | _ => none

/-- `payload.to_value::<ClockSample>()`. -/
def to_clock_sample (bytes : List Nat) : Option ClockSample :=
  match decode_value bytes with
  | .ok (.map entries) => parse_clock_sample_fields entries none none none
  | _ => none

/-- `ClockView::compute_current_time`: the policy is a pure function of
the `latest` cache. -/
def ClockView.compute_current_time (v : ClockView) : Time :=
  match v.policy with
  | .TrustMonotonicLatest =>
    match v.latest.monotonic with
    | some record =>
      { ns := record.sample.value_ns, uncertainty_ns := record.sample.uncertainty_ns,
        domain := .Monotonic, provenance := [record.event_id] }
    | none => Time.unknown
  | .TrustNtpLatest =>
    match v.latest.ntp with
    | some record =>
      { ns := record.sample.value_ns, uncertainty_ns := record.sample.uncertainty_ns,
        domain := .Unix, provenance := [record.event_id] }
    | none => Time.unknown

/-- `ClockView::apply_event`.  Non-observations, mis-tagged observations
and undecodable payloads are ignored; otherwise update the latest cache,
append to the history and recompute `current`. -/
def ClockView.apply_event (v : ClockView) (e : EventEnvelope) :
    Except ClockError ClockView :=
  if e.kind ≠ .Observation then .ok v
  else if e.observation_type ≠ some OBS_CLOCK_SAMPLE_V0 then .ok v
  else
    match to_clock_sample e.payload with
    | none => .ok v
    | some sample =>
      let record : ClockSampleRecord := { event_id := e.event_id, sample }
      let latest :=
        match sample.source with
        | .Monotonic => { v.latest with monotonic := some record }
        | .Ntp => { v.latest with ntp := some record }
        | .Rtc => { v.latest with rtc := some record }
        | .PeerClaim => { v.latest with peer := some record }
      let updated := { v with latest, samples := v.samples ++ [record] }
      .ok { updated with current := updated.compute_current_time }

/-- `ClockView::now_at_cut`. -/
def now_at_cut (events : List EventEnvelope) (cut : Nat) (policy : ClockPolicyId) :
    Except ClockError Time :=
  if cut > events.length then .error (.CutOutOfBounds cut events.length)
  else do
    let view ← (events.take cut).foldlM ClockView.apply_event (ClockView.new policy)
    .ok view.current

/-! ## TimerView (`timer.rs`) -/

/-- `OBS_TIMER_REQUEST_V0` tag constant. -/
def OBS_TIMER_REQUEST_V0 : String := "OBS_TIMER_REQUEST_V0"

/-- `TimerRequest` from `timer.rs`. -/
structure TimerRequest where
  request_id : Hash
  duration_ns : Nat
  requested_at_ns : Nat
deriving DecidableEq, Repr

/-- `TimerRequestRecord`. -/
structure TimerRequestRecord where
  event_id : Hash
  request : TimerRequest
deriving DecidableEq, Repr

/-- `TimerFire` from `timer.rs`. -/
structure TimerFire where
  request_id : Hash
  fired_at_ns : Nat
deriving DecidableEq, Repr

/-- `TimerFireRecord`. -/
structure TimerFireRecord where
  event_id : Hash
  fire : TimerFire
deriving DecidableEq, Repr

/-- `TimerError` from `timer.rs`. -/
inductive TimerError where
  | MalformedRequest (id : Hash)
  | MalformedFire (id : Hash)
deriving DecidableEq, Repr

/-- `TimerView`; `fired_ids: HashSet<Hash>` is modelled by its member
list (`insert` below preserves the no-duplicates semantics, and only
membership is ever observed). -/
structure TimerView where
  requests : List TimerRequestRecord
  fired : List TimerFireRecord
  fired_ids : List Hash
deriving DecidableEq, Repr

/-- `TimerView::new`. -/
def TimerView.new : TimerView :=
  { requests := [], fired := [], fired_ids := [] }

/-- `HashSet::insert`. -/
def hset_insert (s : List Hash) (x : Hash) : List Hash :=
  if s.contains x then s else x :: s

/-- Field collection of the derived `TimerRequest` deserializer. -/
def parse_timer_request_fields : List (Value × Value) → Option Hash →
    Option Nat → Option Nat → Option TimerRequest
  | [], some request_id, some duration_ns, some requested_at_ns =>
    some { request_id, duration_ns, requested_at_ns }
  | [], _, _, _ => none
  | (k, val) :: rest, rid, d, r =>
    match k with
    | .text key =>
      if key = ascii "request_id" then
        match rid, parse_hash val with
        | none, some h => parse_timer_request_fields rest (some h) d r
        | _, _ => none
      else if key = ascii "duration_ns" then
        match d, parse_u64 val with
        | none, some n => parse_timer_request_fields rest rid (some n) r
        | _, _ => none
      else if key = ascii "requested_at_ns" then
        match r, parse_u64 val with
        | none, some n => parse_timer_request_fields rest rid d (some n)
        | _, _ => none
      else parse_timer_request_fields rest rid d r
    | _ => none

/-- `payload.to_value::<TimerRequest>()`. -/
def to_timer_request (bytes : List Nat) : Option TimerRequest :=
  match decode_value bytes with
  | .ok (.map entries) => parse_timer_request_fields entries none none none
  | _ => none

/-- Field collection of the derived `TimerFire` deserializer. -/
def parse_timer_fire_fields : List (Value × Value) → Option Hash →
    Option Nat → Option TimerFire
  | [], some request_id, some fired_at_ns => some { request_id, fired_at_ns }
  | [], _, _ => none
  | (k, val) :: rest, rid, f =>
    match k with
    | .text key =>
      if key = ascii "request_id" then
        match rid, parse_hash val with
        | none, some h => parse_timer_fire_fields rest (some h) f
        | _, _ => none
      else if key = ascii "fired_at_ns" then
        match f, parse_u64 val with
        | none, some n => parse_timer_fire_fields rest rid (some n)
        | _, _ => none
      else parse_timer_fire_fields rest rid f
    | _ => none

/-- `payload.to_value::<TimerFire>()`. -/
def to_timer_fire (bytes : List Nat) : Option TimerFire :=
  match decode_value bytes with
  | .ok (.map entries) => parse_timer_fire_fields entries none none
  | _ => none

/-- `TimerView::apply_event`: record tagged timer-request observations
(malformed payloads fail with `MalformedRequest`), then record any
Decision whose payload decodes as a `TimerFire` and index its
`request_id`; both blocks run in sequence as in the source. -/
def TimerView.apply_event (v : TimerView) (e : EventEnvelope) :
    Except TimerError TimerView :=
  match
    (if e.kind = .Observation ∧ e.observation_type = some OBS_TIMER_REQUEST_V0 then
      match to_timer_request e.payload with
      | none => .error (TimerError.MalformedRequest e.event_id)
      | some request =>
        .ok { v with requests := v.requests ++ [{ event_id := e.event_id, request }] }
    else .ok v : Except TimerError TimerView) with
  | .error er => .error er
  | .ok v1 =>
    if e.kind = .Decision then
      match to_timer_fire e.payload with
      | some fire =>
        .ok { v1 with fired := v1.fired ++ [{ event_id := e.event_id, fire }],
                      fired_ids := hset_insert v1.fired_ids fire.request_id }
      | none => .ok v1
    else .ok v1

/-- `u64::saturating_add`: clamps at `u64::MAX` instead of wrapping. -/
def saturating_add_u64 (a b : Nat) : Nat :=
  min (a + b) (2 ^ 64 - 1)

/-- The accumulation loop of `TimerView::pending_timers`. -/
def pending_loop (fired_ids : List Hash) (current_time : Time) :
    List TimerRequestRecord → List TimerRequestRecord
  | [] => []
  | record :: rest =>
    if fired_ids.contains record.request.request_id then
      pending_loop fired_ids current_time rest
    else
      let fire_time_ns :=
        saturating_add_u64 record.request.requested_at_ns record.request.duration_ns
      if current_time.ns ≥ fire_time_ns then
        record :: pending_loop fired_ids current_time rest
      else pending_loop fired_ids current_time rest

/-- `TimerView::pending_timers` (a `&self` method: it reads the view and
builds a fresh vector, mutating nothing). -/
def TimerView.pending_timers (v : TimerView) (current_time : Time) :
    List TimerRequestRecord :=
  pending_loop v.fired_ids current_time v.requests

/-! ## Deterministic ID allocation (`ids.rs`) -/

/-- `DeterministicIdAllocator`; the `HashMap<Hash, u64>` of per-operation
counters is modelled as an association list (only `entry`/lookup are
used, never iteration, so the representation is observationally
equivalent). -/
structure DeterministicIdAllocator where
  tick_hash : Hash
  counters : List (Hash × Nat)
deriving DecidableEq, Repr

/-- `HashMap` lookup. -/
def counters_get (cs : List (Hash × Nat)) (o : Hash) : Option Nat :=
  (cs.find? (fun p => p.1 = o)).map (fun p => p.2)

/-- `counters.entry(o).or_insert(0)` followed by `*counter += 1`. -/
def counters_bump (cs : List (Hash × Nat)) (o : Hash) : List (Hash × Nat) :=
  match cs.find? (fun p => p.1 = o) with
  | some _ => cs.map (fun p => if p.1 = o then (p.1, p.2 + 1) else p)
  | none => cs ++ [(o, 1)]

/-- `DeterministicIdAllocator::new_for_tick`: sort the operation hashes
(by their bytes, i.e. numerically) and hash the canonical encoding of
the sorted `Vec<Hash>`; an encoding error falls back to the zero hash
(`unwrap_or`). -/
def new_for_tick (blake3 : List Nat → Nat) (operations : List Hash) :
    DeterministicIdAllocator :=
  let sorted := isortBy hashLe operations
  let tick_hash :=
    match encode_value (.array (sorted.map hashValue)) with
    | .ok bytes => blake3 bytes
    | .error _ => 0
  { tick_hash, counters := [] }

/-- The digest of one allocation: `H(canonical_encode((tick_hash,
operation_hash, counter)))`; the 3-tuple serializes as a 3-array. -/
def node_id_digest (blake3 : List Nat → Nat) (tick_hash operation_hash : Hash)
    (counter : Nat) : Hash :=
  match encode_value (.array [hashValue tick_hash, hashValue operation_hash, .int counter]) with
  | .ok bytes => blake3 bytes
  | .error _ => 0

/-- `DeterministicIdAllocator::alloc_node_id` (returns the fresh `NodeId`
digest together with the updated allocator). -/
def alloc_node_id (blake3 : List Nat → Nat) (a : DeterministicIdAllocator)
    (operation_hash : Hash) : Hash × DeterministicIdAllocator :=
  let counter := (counters_get a.counters operation_hash).getD 0
  (node_id_digest blake3 a.tick_hash operation_hash counter,
   { a with counters := counters_bump a.counters operation_hash })

/-- Run a sequence of `alloc_node_id` calls, collecting the returned IDs. -/
def alloc_run (blake3 : List Nat → Nat) (a : DeterministicIdAllocator) :
    List Hash → List Hash
  | [] => []
  | o :: rest =>
    let (id, a1) := alloc_node_id blake3 a o
    id :: alloc_run blake3 a1 rest

/-! ## Helper specifications used in theorem statements -/

/-- Decidable equality of `Except` results (used to evaluate concrete
runs of the embedded code inside proofs). -/
instance exceptDecEq {ε α : Type} [DecidableEq ε] [DecidableEq α] :
    DecidableEq (Except ε α) := fun a b =>
  match a, b with
  | .error e1, .error e2 =>
    match decEq e1 e2 with
    | isTrue h => isTrue (by rw [h])
    | isFalse h => isFalse (fun hh => h (by injection hh))
  | .ok a1, .ok a2 =>
    match decEq a1 a2 with
    | isTrue h => isTrue (by rw [h])
    | isFalse h => isFalse (fun hh => h (by injection hh))
  | .error _, .ok _ => isFalse (fun hh => Except.noConfusion hh)
  | .ok _, .error _ => isFalse (fun hh => Except.noConfusion hh)

/-- The composite `encode(decode(b))` of the round-trip property:
decode the bytes and canonically re-encode the resulting value. -/
def reencode (bytes : List Nat) : Except CanonicalError (List Nat) :=
  match decode_value bytes with
  | .ok v => encode_value v
  | .error e => .error e

/-- Does this parent id resolve, in `store`, to a `PolicyContext` event? -/
def resolvesToPolicy (store : EventStore) (p : EventId) : Bool :=
  match store p with
  | some parent => parent.kind = .PolicyContext
  | none => false

/-- The error-swallowing step function of the `now_at_cut` fold;
`ClockView::apply_event` never actually errors, so folding with it is
folding `apply_event`. -/
def clock_fold_step (v : ClockView) (e : EventEnvelope) : ClockView :=
  match v.apply_event e with
  | .ok updated => updated
  | .error _ => v

/-- Reference behaviour of a call sequence against the allocator: the
`k`-th call for operation `o` (counting from 0, `k` = number of earlier
calls for the same `o`) returns `H((tick_hash, o, k))`. -/
def spec_run (blake3 : List Nat → Nat) (tick_hash : Hash) (past : List Hash) :
    List Hash → List Hash
  | [] => []
  | o :: rest =>
    node_id_digest blake3 tick_hash o (past.count o) :: spec_run blake3 tick_hash (past ++ [o]) rest

/-- `[s, s+1, …, s+n-1]`. -/
def range_from (s : Nat) : Nat → List Nat
  | 0 => []
  | n + 1 => s :: range_from (s + 1) n

/-- The IDs handed to operation `o` by a call sequence `calls` whose
results were `ids`. -/
def ids_for (o : Hash) (calls ids : List Hash) : List Hash :=
  ((calls.zip ids).filter (fun p => decide (p.1 = o))).map (fun p => p.2)

/-! ## Concrete material for witnesses and counterexamples

The development is parametric in the digest; witnesses instantiate it
with a cheap computable stand-in (nothing proved depends on which
function is used). -/

/-- Concrete digest function used by witnesses. -/
def cBlake (l : List Nat) : Nat :=
  l.foldl (fun a b => (a * 31 + b + 1) % 1000003) 7

/-- Unwrap an `Except` with a default. -/
def getOk {ε α : Type} (x : Except ε α) (d : α) : α :=
  match x with
  | .ok v => v
  | .error _ => d

/-- Placeholder envelope for `getOk` defaults. -/
def defaultEnvelope : EventEnvelope :=
  { event_id := 0, kind := .Observation, payload := [], parents := [],
    agent_id := none, signature := none, observation_type := none }

/-- A genesis `PolicyContext` built by its constructor. -/
def cPolicy : EventEnvelope :=
  getOk (new_policy_context cBlake [7] [] none none) defaultEnvelope

/-- A genesis `Observation` built by its constructor. -/
def cObs : EventEnvelope :=
  getOk (new_observation cBlake [8] [] none none none) defaultEnvelope

/-- A `Decision` with `cObs` as evidence and `cPolicy` as policy. -/
def cDecision : EventEnvelope :=
  getOk (new_decision cBlake [9] [cObs.event_id] cPolicy.event_id none none) defaultEnvelope

/-- A store resolving exactly `cObs` and `cPolicy`. -/
def cStore : EventStore := fun h =>
  if h = cObs.event_id then some cObs
  else if h = cPolicy.event_id then some cPolicy
  else none

/-- A raw envelope whose `event_id` is honestly computed but whose
`observation_type` is populated although its kind is `PolicyContext`. -/
def cRawTagged : RawEventEnvelope :=
  { event_id := getOk (compute_event_id cBlake .PolicyContext [7] []) 0,
    kind := .PolicyContext, payload := [7], parents := [],
    agent_id := none, signature := none, observation_type := some "X" }

/-- A raw envelope carrying an empty `AgentId`. -/
def cRawEmptyAgent : RawEventEnvelope :=
  { cRawTagged with agent_id := some "", observation_type := none }

/-- Canonical payload bytes of a Monotonic clock sample. -/
def cSamplePayload : List Nat :=
  getOk (encode_value (.map
    [(.text (ascii "source"), .text (ascii "Monotonic")),
     (.text (ascii "value_ns"), .int 5000),
     (.text (ascii "uncertainty_ns"), .int 10)])) []

/-- A tagged clock-sample observation. -/
def cObsClock : EventEnvelope :=
  getOk (new_observation cBlake cSamplePayload [] (some OBS_CLOCK_SAMPLE_V0) none none)
    defaultEnvelope

/-- Canonical payload bytes of a timer request (`request_id` 42,
duration 10 ns, requested at 5 ns). -/
def cReqPayload : List Nat :=
  getOk (encode_value (.map
    [(.text (ascii "request_id"), hashValue 42),
     (.text (ascii "duration_ns"), .int 10),
     (.text (ascii "requested_at_ns"), .int 5)])) []

/-- Canonical payload bytes of the matching timer fire. -/
def cFirePayload : List Nat :=
  getOk (encode_value (.map
    [(.text (ascii "request_id"), hashValue 42),
     (.text (ascii "fired_at_ns"), .int 15)])) []

/-- The tagged timer-request observation. -/
def cObsTimer : EventEnvelope :=
  getOk (new_observation cBlake cReqPayload [] (some OBS_TIMER_REQUEST_V0) none none)
    defaultEnvelope

/-- A decision whose payload decodes as the `TimerFire` for request 42. -/
def cDecFire : EventEnvelope :=
  getOk (new_decision cBlake cFirePayload [cObsTimer.event_id] cPolicy.event_id none none)
    defaultEnvelope

/-- A small timer view with one pending request and one unrelated fired id. -/
def cTimerView : TimerView :=
  { requests := [{ event_id := 77, request := { request_id := 42, duration_ns := 10, requested_at_ns := 5 } }],
    fired := [], fired_ids := [9] }

/-- A probe time (20 ns). -/
def cTime : Time :=
  { ns := 20, uncertainty_ns := 0, domain := .Monotonic, provenance := [] }

/-- Canonical payload bytes of a second timer request (`request_id` 43). -/
def cReqPayload43 : List Nat :=
  getOk (encode_value (.map
    [(.text (ascii "request_id"), hashValue 43),
     (.text (ascii "duration_ns"), .int 10),
     (.text (ascii "requested_at_ns"), .int 5)])) []

/-- Canonical payload bytes of the fire for request 43. -/
def cFirePayload43 : List Nat :=
  getOk (encode_value (.map
    [(.text (ascii "request_id"), hashValue 43),
     (.text (ascii "fired_at_ns"), .int 15)])) []

/-- The tagged observation requesting timer 43. -/
def cObsTimer43 : EventEnvelope :=
  getOk (new_observation cBlake cReqPayload43 [] (some OBS_TIMER_REQUEST_V0) none none)
    defaultEnvelope

/-- A decision whose payload decodes as the `TimerFire` for request 43. -/
def cDecFire43 : EventEnvelope :=
  getOk (new_decision cBlake cFirePayload43 [cObsTimer43.event_id] cPolicy.event_id none none)
    defaultEnvelope

/-- The timer view after requesting 42 and 43 and firing only 43. -/
def cTimerFolded : TimerView :=
  getOk ([cObsTimer, cObsTimer43, cDecFire43].foldlM TimerView.apply_event TimerView.new)
    TimerView.new

/-- The record of the still-pending request 42. -/
def cPendingRecord : TimerRequestRecord :=
  { event_id := cObsTimer.event_id,
    request := { request_id := 42, duration_ns := 10, requested_at_ns := 5 } }

/-- A concrete `DeltaSpec` built by a constructor. -/
def cDelta : DeltaSpec :=
  getOk (new_scheduler_policy cBlake 5 "d") { kind := .SchedulerPolicy 0, description := "", hash := 0 }

/-! ## General lemmas about parent canonicalization -/

theorem mem_sinsert {x y : Hash} : ∀ {l : List Hash}, y ∈ sinsert x l ↔ y = x ∨ y ∈ l := by
  intro l
  induction l with
  | nil => simp [sinsert]
  | cons a t ih =>
    simp only [sinsert]
    split
    · simp only [List.mem_cons]
      try tauto
    · split
      · rename_i hlt heq
        subst heq
        simp only [List.mem_cons]
        try tauto
      · simp only [List.mem_cons, ih]
        try tauto

theorem pairwise_sinsert {x : Hash} :
    ∀ {l : List Hash}, l.Pairwise (· < ·) → (sinsert x l).Pairwise (· < ·) := by
  intro l
  induction l with
  | nil => intro _; simp [sinsert]
  | cons a t ih =>
    intro h
    rw [List.pairwise_cons] at h
    obtain ⟨ha, ht⟩ := h
    by_cases hlt : x < a
    · simp only [sinsert, if_pos hlt]
      rw [List.pairwise_cons]
      refine ⟨?_, ?_⟩
      · intro y hy
        rcases List.mem_cons.mp hy with rfl | hyt
        · exact hlt
        · exact lt_trans hlt (ha y hyt)
      · rw [List.pairwise_cons]
        exact ⟨ha, ht⟩
    · by_cases heq : x = a
      · simp only [sinsert, if_neg hlt, if_pos heq]
        rw [List.pairwise_cons]
        exact ⟨ha, ht⟩
      · simp only [sinsert, if_neg hlt, if_neg heq]
        rw [List.pairwise_cons]
        refine ⟨?_, ih ht⟩
        intro y hy
        rcases mem_sinsert.mp hy with rfl | hyt
        · exact Nat.lt_of_le_of_ne (Nat.le_of_not_lt hlt) (fun hax => heq hax.symm)
        · exact ha y hyt

theorem canonicalize_aux_pairwise :
    ∀ (l acc : List Hash), acc.Pairwise (· < ·) →
      (l.foldl (fun acc x => sinsert x acc) acc).Pairwise (· < ·) := by
  intro l
  induction l with
  | nil => intro acc h; simpa using h
  | cons a t ih =>
    intro acc h
    simp only [List.foldl_cons]
    exact ih _ (pairwise_sinsert h)

theorem mem_canonicalize_aux :
    ∀ (l acc : List Hash) (y : Hash),
      (y ∈ l.foldl (fun acc x => sinsert x acc) acc ↔ y ∈ acc ∨ y ∈ l) := by
  intro l
  induction l with
  | nil => simp
  | cons a t ih =>
    intro acc y
    simp only [List.foldl_cons, List.mem_cons]
    rw [ih, mem_sinsert]
    tauto

theorem canonicalize_parents_pairwise (l : List Hash) :
    (canonicalize_parents l).Pairwise (· < ·) :=
  canonicalize_aux_pairwise l [] (by simp)

theorem mem_canonicalize_parents (l : List Hash) (y : Hash) :
    y ∈ canonicalize_parents l ↔ y ∈ l := by
  unfold canonicalize_parents
  rw [mem_canonicalize_aux]
  simp

theorem pairwise_lt_eq_of_mem_iff :
    ∀ {l₁ l₂ : List Hash}, l₁.Pairwise (· < ·) → l₂.Pairwise (· < ·) →
      (∀ x, x ∈ l₁ ↔ x ∈ l₂) → l₁ = l₂ := by
  intro l₁
  induction l₁ with
  | nil =>
    intro l₂ _ _ hm
    cases l₂ with
    | nil => rfl
    | cons b t => exact absurd ((hm b).mpr (List.mem_cons_self b t)) (by simp)
  | cons a t ih =>
    intro l₂ h1 h2 hm
    cases l₂ with
    | nil => exact absurd ((hm a).mp (List.mem_cons_self a t)) (by simp)
    | cons b t₂ =>
      rw [List.pairwise_cons] at h1 h2
      obtain ⟨ha, ht⟩ := h1
      obtain ⟨hb, ht₂⟩ := h2
      have hab : a = b := by
        have h₁ := (hm a).mp (List.mem_cons_self a t)
        have h₂ := (hm b).mpr (List.mem_cons_self b t₂)
        rcases List.mem_cons.mp h₁ with rfl | h₁'
        · rfl
        · rcases List.mem_cons.mp h₂ with h | h₂'
          · exact h.symm
          · exact absurd (ha b h₂') (Nat.lt_asymm (hb a h₁'))
      subst hab
      congr 1
      apply ih ht ht₂
      intro x
      constructor
      · intro hx
        have hx₂ := (hm x).mp (List.mem_cons.mpr (Or.inr hx))
        rcases List.mem_cons.mp hx₂ with rfl | h
        · exact absurd (ha x hx) (lt_irrefl x)
        · exact h
      · intro hx
        have hx₁ := (hm x).mpr (List.mem_cons.mpr (Or.inr hx))
        rcases List.mem_cons.mp hx₁ with rfl | h
        · exact absurd (hb x hx) (lt_irrefl x)
        · exact h

theorem canonicalize_parents_congr {l l' : List Hash}
    (h : ∀ x, x ∈ l' ↔ x ∈ l) :
    canonicalize_parents l' = canonicalize_parents l :=
  pairwise_lt_eq_of_mem_iff (canonicalize_parents_pairwise l')
    (canonicalize_parents_pairwise l)
    (fun x => by rw [mem_canonicalize_parents, mem_canonicalize_parents]; exact h x)

theorem isEmpty_congr {l l' : List Hash} (h : ∀ x, x ∈ l' ↔ x ∈ l) :
    l'.isEmpty = l.isEmpty := by
  cases l' with
  | nil =>
    cases l with
    | nil => rfl
    | cons b t => exact absurd ((h b).mpr (by simp)) (by simp)
  | cons a t =>
    cases l with
    | nil => exact absurd ((h a).mp (by simp)) (by simp)
    | cons b t₂ => rfl

theorem contains_congr {l l' : List Hash} (h : ∀ x, x ∈ l' ↔ x ∈ l) (p : Hash) :
    l'.contains p = l.contains p := by
  rw [Bool.eq_iff_iff]
  show l'.elem p = true ↔ l.elem p = true
  rw [List.elem_iff, List.elem_iff]
  exact h p

/-! ## Claim C1 -/

set_option maxRecDepth 10000 in
/-- C1: the round-trip claim fails on the code, in both directions.
The encoder accepts the value `Float(2^64)` (bit pattern
`0x43F0000000000000`) and emits `[0x1b, 0,0,0,0,0,0,0,0]` — `write_major`
truncates the integer `2^64` to the `u64` `0` — which the decoder then
rejects as a non-minimal integer, so `decode(encode(v))` yields no value
at all, let alone one equal to `v`.  Dually, the decoder accepts the
byte string `[0xf7]` (the CBOR simple value *undefined*), decodes it to
`Null`, and `encode(decode([0xf7]))` is `[0xf6] ≠ [0xf7]`. -/
theorem c1_roundtrip_failure :
    encode_value (.float 0x43F0000000000000) = .ok [0x1b, 0, 0, 0, 0, 0, 0, 0, 0] ∧
    reencode [0x1b, 0, 0, 0, 0, 0, 0, 0, 0] = .error .NonCanonicalInt ∧
    reencode [0xf7] = .ok [0xf6] := by
  refine ⟨by decide, by decide, by decide⟩

/-! ## Claim C2 -/

/-- C2: every envelope constructor stores strictly increasing
(sorted-unique) parents, stores exactly the recomputed content hash of
`(kind, payload bytes, parents)` as its `event_id`, and is invariant
under permuting or duplicating its input parent list (any input list
with the same members yields the very same envelope, hence the same
`event_id`). -/
theorem c2_constructor_invariants (blake3 : List Nat → Nat) (payload : List Nat)
    (ot agent : Option String) (sig : Option (List Nat)) (sigc : List Nat)
    (parents parents' evidence evidence' extra extra' : List EventId)
    (policy dpar : EventId) :
    (∀ e, new_observation blake3 payload parents ot agent sig = .ok e →
       e.parents.Pairwise (· < ·) ∧
       compute_event_id blake3 e.kind e.payload e.parents = .ok e.event_id) ∧
    (∀ e, new_policy_context blake3 payload parents agent sig = .ok e →
       e.parents.Pairwise (· < ·) ∧
       compute_event_id blake3 e.kind e.payload e.parents = .ok e.event_id) ∧
    (∀ e, new_decision blake3 payload evidence policy agent sig = .ok e →
       e.parents.Pairwise (· < ·) ∧
       compute_event_id blake3 e.kind e.payload e.parents = .ok e.event_id) ∧
    (∀ e, new_commit blake3 payload dpar extra agent sigc = .ok e →
       e.parents.Pairwise (· < ·) ∧
       compute_event_id blake3 e.kind e.payload e.parents = .ok e.event_id) ∧
    ((∀ x, x ∈ parents' ↔ x ∈ parents) →
       new_observation blake3 payload parents' ot agent sig =
         new_observation blake3 payload parents ot agent sig ∧
       new_policy_context blake3 payload parents' agent sig =
         new_policy_context blake3 payload parents agent sig) ∧
    ((∀ x, x ∈ evidence' ↔ x ∈ evidence) →
       new_decision blake3 payload evidence' policy agent sig =
         new_decision blake3 payload evidence policy agent sig) ∧
    ((∀ x, x ∈ extra' ↔ x ∈ extra) →
       new_commit blake3 payload dpar extra' agent sigc =
         new_commit blake3 payload dpar extra agent sigc) := by
  refine ⟨?_, ?_, ?_, ?_, ?_, ?_, ?_⟩
  · intro e he
    simp only [new_observation] at he
    split at he
    · exact absurd he (by simp)
    · rename_i id hc
      injection he with h
      subst h
      exact ⟨canonicalize_parents_pairwise _, hc⟩
  · intro e he
    simp only [new_policy_context] at he
    split at he
    · exact absurd he (by simp)
    · rename_i id hc
      injection he with h
      subst h
      exact ⟨canonicalize_parents_pairwise _, hc⟩
  · intro e he
    simp only [new_decision] at he
    split at he
    · exact absurd he (by simp)
    · split at he
      · exact absurd he (by simp)
      · split at he
        · exact absurd he (by simp)
        · rename_i id hc
          injection he with h
          subst h
          exact ⟨canonicalize_parents_pairwise _, hc⟩
  · intro e he
    simp only [new_commit] at he
    split at he
    · exact absurd he (by simp)
    · rename_i id hc
      injection he with h
      subst h
      exact ⟨canonicalize_parents_pairwise _, hc⟩
  · intro hmem
    have hcan := canonicalize_parents_congr hmem
    constructor
    · simp only [new_observation, hcan]
    · simp only [new_policy_context, hcan]
  · intro hmem
    have hemp := isEmpty_congr hmem
    have hcon := contains_congr hmem policy
    have hcan : canonicalize_parents (evidence' ++ [policy]) =
        canonicalize_parents (evidence ++ [policy]) :=
      canonicalize_parents_congr (fun x => by
        simp only [List.mem_append]
        rw [hmem x])
    simp only [new_decision, hemp, hcon, hcan]
  · intro hmem
    have hcan : canonicalize_parents (extra' ++ [dpar]) =
        canonicalize_parents (extra ++ [dpar]) :=
      canonicalize_parents_congr (fun x => by
        simp only [List.mem_append]
        rw [hmem x])
    simp only [new_commit, hcan]

set_option maxRecDepth 10000 in
set_option maxHeartbeats 1000000 in
/-- Witness for C2: concrete permuted/duplicated parent lists produce
identical envelopes, and a concretely constructed observation has
sorted-unique parents and a verifying event id. -/
theorem c2_constructor_invariants_witness :
    (new_observation cBlake [7] [1, 3, 5] none none none =
       new_observation cBlake [7] [5, 3, 3, 1] none none none) ∧
    (new_commit cBlake [7] 9 [4, 2, 2] none [1] =
       new_commit cBlake [7] 9 [2, 4] none [1]) ∧
    cObs.parents.Pairwise (· < ·) ∧
    compute_event_id cBlake cObs.kind cObs.payload cObs.parents = .ok cObs.event_id := by
  have h := c2_constructor_invariants cBlake [7] none none none [1]
    [5, 3, 3, 1] [1, 3, 5] [] [] [2, 4] [4, 2, 2] 0 9
  have h8 := c2_constructor_invariants cBlake [8] none none none []
    [] [] [] [] [] [] 0 0
  have hobs : new_observation cBlake [8] [] none none none = .ok cObs := by decide
  refine ⟨(h.2.2.2.2.1 ?_).1, h.2.2.2.2.2.2 ?_, (h8.1 cObs hobs).1, (h8.1 cObs hobs).2⟩
  · intro x
    simp only [List.mem_cons, List.not_mem_nil]
    tauto
  · intro x
    simp only [List.mem_cons, List.not_mem_nil]
    tauto

/-! ## Claim C3 -/

theorem policyScan_fst (store : EventStore) :
    ∀ (l : List EventId) (c : Nat) (b : Bool),
      (l.foldl (fun acc p =>
        match store p with
        | some parent =>
          if parent.kind = .PolicyContext then (acc.1 + 1, acc.2) else (acc.1, true)
        | none => acc) (c, b)).1 = c + l.countP (resolvesToPolicy store) := by
  intro l
  induction l with
  | nil => simp
  | cons p t ih =>
    intro c b
    simp only [List.foldl_cons, List.countP_cons]
    cases hs : store p with
    | none =>
      rw [ih]
      simp [resolvesToPolicy, hs]
    | some parent =>
      by_cases hk : parent.kind = EventKind.PolicyContext
      · simp only [hs, if_pos hk]
        rw [ih]
        simp only [resolvesToPolicy, hs, hk]
        simp
        omega
      · simp only [hs, if_neg hk]
        rw [ih]
        simp [resolvesToPolicy, hs, hk]

theorem policyScan_snd (store : EventStore) :
    ∀ (l : List EventId) (c : Nat) (b : Bool),
      ((l.foldl (fun acc p =>
        match store p with
        | some parent =>
          if parent.kind = .PolicyContext then (acc.1 + 1, acc.2) else (acc.1, true)
        | none => acc) (c, b)).2 = true ↔
        b = true ∨ ∃ p ∈ l, ∃ q, store p = some q ∧ q.kind ≠ .PolicyContext) := by
  intro l
  induction l with
  | nil => simp
  | cons p t ih =>
    intro c b
    simp only [List.foldl_cons]
    cases hs : store p with
    | none =>
      rw [ih]
      constructor
      · rintro (hb | ⟨p', hp', hq⟩)
        · exact Or.inl hb
        · exact Or.inr ⟨p', List.mem_cons.mpr (Or.inr hp'), hq⟩
      · rintro (hb | ⟨p', hp', q, hq, hqk⟩)
        · exact Or.inl hb
        · rcases List.mem_cons.mp hp' with rfl | ht
          · rw [hs] at hq; exact absurd hq (by simp)
          · exact Or.inr ⟨p', ht, q, hq, hqk⟩
    | some parent =>
      by_cases hk : parent.kind = EventKind.PolicyContext
      · simp only [hs, if_pos hk]
        rw [ih]
        constructor
        · rintro (hb | ⟨p', hp', hq⟩)
          · exact Or.inl hb
          · exact Or.inr ⟨p', List.mem_cons.mpr (Or.inr hp'), hq⟩
        · rintro (hb | ⟨p', hp', q, hq, hqk⟩)
          · exact Or.inl hb
          · rcases List.mem_cons.mp hp' with rfl | ht
            · rw [hs] at hq
              injection hq with hq
              subst hq
              exact absurd hk hqk
            · exact Or.inr ⟨p', ht, q, hq, hqk⟩
      · simp only [hs, if_neg hk]
        rw [ih]
        constructor
        · intro _
          exact Or.inr ⟨p, List.mem_cons_self p t, parent, hs, hk⟩
        · intro _
          exact Or.inl rfl

/-- C3: on a `Decision` envelope, `validate_event` succeeds only if every
parent resolves in the store, exactly one parent resolves to a
`PolicyContext`, and some parent resolves to a non-`PolicyContext`
event; equivalently (contrapositive), it returns an error whenever any
of the three conditions fails. -/
theorem c3_decision_validation (blake3 : List Nat → Nat) (e : EventEnvelope)
    (store : EventStore) (hkind : e.kind = .Decision)
    (hok : validate_event blake3 e store = .ok ()) :
    (∀ p ∈ e.parents, (store p).isSome = true) ∧
    e.parents.countP (resolvesToPolicy store) = 1 ∧
    (∃ p ∈ e.parents, ∃ q, store p = some q ∧ q.kind ≠ .PolicyContext) := by
  unfold validate_event at hok
  cases hv : verify_event_id blake3 e with
  | error ce => rw [hv] at hok; exact absurd hok (by simp)
  | ok vb =>
    rw [hv] at hok
    cases vb with
    | false => exact absurd hok (by simp)
    | true =>
      simp only at hok
      split_ifs at hok with h1 h2 h3 h4 h5 h6
      have hresolve : ∀ p ∈ e.parents, (store p).isSome = true :=
        List.all_eq_true.mp h2
      have hcount : (policyScan store e.parents).1 = 1 := by
        by_contra hne
        exact h3 ⟨hkind, hne⟩
      have hcountP : e.parents.countP (resolvesToPolicy store) = 1 := by
        have := policyScan_fst store e.parents 0 false
        unfold policyScan at hcount
        omega
      refine ⟨hresolve, hcountP, ?_⟩
      by_cases hsnd : (policyScan store e.parents).2 = true
      · have := (policyScan_snd store e.parents 0 false).mp hsnd
        rcases this with hb | hex
        · exact absurd hb (by simp)
        · exact hex
      · -- no non-policy parent was seen: every parent resolves to a
        -- PolicyContext, so the count is the length; the length-1 check
        -- (h4) then forces a contradiction.
        exfalso
        have hall : ∀ p ∈ e.parents, resolvesToPolicy store p = true := by
          intro p hp
          cases hq : store p with
          | none => exact absurd ((hresolve p hp)) (by simp [hq])
          | some q =>
            by_cases hqk : q.kind = EventKind.PolicyContext
            · simp [resolvesToPolicy, hq, hqk]
            · exact absurd ((policyScan_snd store e.parents 0 false).mpr
                (Or.inr ⟨p, hp, q, hq, hqk⟩)) hsnd
        have hlen : e.parents.countP (resolvesToPolicy store) = e.parents.length :=
          List.countP_eq_length.mpr hall
        have hlen1 : e.parents.length = 1 := by omega
        exact h4 ⟨hkind, hsnd, hlen1⟩

set_option maxRecDepth 10000 in
set_option maxHeartbeats 1000000 in
/-- Witness for C3: a concretely validated decision resolves all its
parents, exactly one of them to a policy context. -/
theorem c3_decision_validation_witness :
    (∀ p ∈ cDecision.parents, (cStore p).isSome = true) ∧
    cDecision.parents.countP (resolvesToPolicy cStore) = 1 ∧
    (∃ p ∈ cDecision.parents, ∃ q, cStore p = some q ∧ q.kind ≠ .PolicyContext) :=
  c3_decision_validation cBlake cDecision cStore (by decide) (by decide)

/-! ## Claim C4 -/

/-- C4: deserializing an envelope fails — never yields a constructed
envelope — whenever the stored `event_id` differs from the recomputed
hash, or the parents are not strictly increasing, or the kind is
`Commit` without a signature, or the payload bytes are not canonical, or
the `agent_id` is an empty string, or the signature is empty.  (A byte
stream that does not even parse into the raw field record fails
earlier.) -/
theorem c4_deserialize_rejects (blake3 : List Nat → Nat) (raw : RawEventEnvelope)
    (hbad :
      (∃ c, compute_event_id blake3 raw.kind raw.payload raw.parents = .ok c ∧
        raw.event_id ≠ c) ∨
      strictlyIncreasing raw.parents = false ∨
      (raw.kind = .Commit ∧ raw.signature = none) ∨
      validate_canonical raw.payload = false ∨
      raw.agent_id = some "" ∨
      raw.signature = some []) :
    ∀ env, deserialize_envelope blake3 raw ≠ .ok env := by
  intro env hd
  unfold deserialize_envelope at hd
  split at hd
  · exact absurd hd (by simp)
  rename_i hcanon
  split at hd
  · exact absurd hd (by simp)
  rename_i hagent
  split at hd
  · exact absurd hd (by simp)
  rename_i hsig
  split at hd
  · exact absurd hd (by simp)
  rename_i computed heq
  split at hd
  · exact absurd hd (by simp)
  rename_i hid
  split at hd
  · exact absurd hd (by simp)
  rename_i hsorted
  split at hd
  · exact absurd hd (by simp)
  rename_i hcommit
  -- every check passed; refute each disjunct in turn
  rcases hbad with ⟨c, hcc, hne⟩ | hs | ⟨hk, hsn⟩ | hvc | hag | hse
  · rw [heq] at hcc
    injection hcc with hcc
    exact hne (by rw [← hcc]; exact Decidable.not_not.mp hid)
  · rw [Decidable.not_not.mp hsorted] at hs
    exact absurd hs (by simp)
  · exact hcommit ⟨hk, by rw [hsn]; rfl⟩
  · rw [Decidable.not_not.mp hcanon] at hvc
    exact absurd hvc (by simp)
  · exact hagent hag
  · exact hsig hse

set_option maxRecDepth 10000 in
/-- Witness for C4: a raw envelope with an empty `AgentId` is rejected. -/
theorem c4_deserialize_rejects_witness :
    deserialize_envelope cBlake cRawEmptyAgent ≠ .ok defaultEnvelope :=
  c4_deserialize_rejects cBlake cRawEmptyAgent
    (Or.inr (Or.inr (Or.inr (Or.inr (Or.inl (by decide)))))) defaultEnvelope

/-! ## Claim C5 -/

theorem clock_apply_isOk (v : ClockView) (e : EventEnvelope) :
    ∃ updated, v.apply_event e = .ok updated := by
  unfold ClockView.apply_event
  split_ifs
  · exact ⟨v, rfl⟩
  · exact ⟨v, rfl⟩
  · cases h : to_clock_sample e.payload with
    | none => exact ⟨v, rfl⟩
    | some sample => exact ⟨_, rfl⟩

theorem clock_apply_eq (v : ClockView) (e : EventEnvelope) :
    v.apply_event e = .ok (clock_fold_step v e) := by
  obtain ⟨v', hv⟩ := clock_apply_isOk v e
  rw [hv]
  unfold clock_fold_step
  rw [hv]

theorem clock_foldlM_ok :
    ∀ (l : List EventEnvelope) (v : ClockView),
      l.foldlM ClockView.apply_event v = .ok (l.foldl clock_fold_step v) := by
  intro l
  induction l with
  | nil => intro v; rfl
  | cons e t ih =>
    intro v
    rw [List.foldlM_cons, clock_apply_eq]
    simp only [List.foldl_cons]
    exact ih (clock_fold_step v e)

/-- C5: `now_at_cut` returns `CutOutOfBounds` exactly when `cut` exceeds
the event count (carrying the offending `cut` and length), and otherwise
returns the `current` time of a fresh view with the given policy after
folding `apply_event` over the first `cut` events in order. -/
theorem c5_now_at_cut (events : List EventEnvelope) (cut : Nat) (policy : ClockPolicyId) :
    (events.length < cut →
      now_at_cut events cut policy = .error (.CutOutOfBounds cut events.length)) ∧
    (cut ≤ events.length →
      now_at_cut events cut policy =
        .ok (((events.take cut).foldl clock_fold_step (ClockView.new policy)).current)) := by
  constructor
  · intro h
    unfold now_at_cut
    rw [if_pos h]
  · intro h
    unfold now_at_cut
    rw [if_neg (Nat.not_lt.mpr h)]
    rw [show ((events.take cut).foldlM ClockView.apply_event (ClockView.new policy) >>=
          fun view => Except.ok view.current) =
        (do
          let view ← (events.take cut).foldlM ClockView.apply_event (ClockView.new policy)
          Except.ok view.current) from rfl]
    rw [clock_foldlM_ok]
    rfl

set_option maxRecDepth 10000 in
/-- Witness for C5: concrete cuts on a one-event worldline, in bounds
and out of bounds. -/
theorem c5_now_at_cut_witness :
    now_at_cut [cObsClock] 2 .TrustMonotonicLatest = .error (.CutOutOfBounds 2 1) ∧
    now_at_cut [cObsClock] 1 .TrustMonotonicLatest =
      .ok ((([cObsClock].take 1).foldl clock_fold_step
        (ClockView.new .TrustMonotonicLatest)).current) :=
  ⟨(c5_now_at_cut [cObsClock] 2 .TrustMonotonicLatest).1 (by decide),
   (c5_now_at_cut [cObsClock] 1 .TrustMonotonicLatest).2 (by decide)⟩

/-! ## Claim C6 -/

theorem pending_loop_eq_filter (fired : List Hash) (t : Time) :
    ∀ l, pending_loop fired t l =
      l.filter (fun r => !fired.contains r.request.request_id &&
        decide (saturating_add_u64 r.request.requested_at_ns r.request.duration_ns ≤ t.ns)) := by
  intro l
  induction l with
  | nil => rfl
  | cons r rest ih =>
    show (if fired.contains r.request.request_id then pending_loop fired t rest
          else if t.ns ≥ saturating_add_u64 r.request.requested_at_ns r.request.duration_ns
            then r :: pending_loop fired t rest
            else pending_loop fired t rest) = _
    rw [List.filter_cons]
    cases h1 : fired.contains r.request.request_id with
    | true => simp [ih]
    | false =>
      by_cases h2 : saturating_add_u64 r.request.requested_at_ns r.request.duration_ns ≤ t.ns
      · simp [ih, h2, ge_iff_le]
      · simp [ih, h2, ge_iff_le]

/-- C6: `pending_timers` returns exactly the request records whose
`request_id` is not among the fired ids and whose deadline — the
saturating `u64` sum of `requested_at_ns` and `duration_ns` — is at most
`current_time.ns`; and the saturating sum clamps at `u64::MAX` on
overflow instead of wrapping.  (In the embedding `pending_timers` is a
pure function of the view, mirroring the `&self` receiver that cannot
mutate it.) -/
theorem c6_pending_timers (v : TimerView) (current_time : Time) (a b : Nat) :
    v.pending_timers current_time =
      v.requests.filter (fun r => !v.fired_ids.contains r.request.request_id &&
        decide (saturating_add_u64 r.request.requested_at_ns r.request.duration_ns ≤
          current_time.ns)) ∧
    (a + b ≤ 2 ^ 64 - 1 → saturating_add_u64 a b = a + b) ∧
    (2 ^ 64 - 1 < a + b → saturating_add_u64 a b = 2 ^ 64 - 1) := by
  refine ⟨pending_loop_eq_filter v.fired_ids current_time v.requests, ?_, ?_⟩ <;>
    (intro h; unfold saturating_add_u64; omega)

set_option maxRecDepth 10000 in
/-- Witness for C6: the concrete view pends its unfired due request, and
the saturating sum clamps `u64::MAX + 5`. -/
theorem c6_pending_timers_witness :
    cTimerView.pending_timers cTime =
      [{ event_id := 77,
         request := { request_id := 42, duration_ns := 10, requested_at_ns := 5 } }] ∧
    saturating_add_u64 (2 ^ 64 - 1) 5 = 2 ^ 64 - 1 ∧
    saturating_add_u64 5 10 = 15 := by
  refine ⟨?_, ?_, ?_⟩
  · rw [(c6_pending_timers cTimerView cTime 0 0).1]
    decide
  · exact (c6_pending_timers cTimerView cTime (2 ^ 64 - 1) 5).2.2 (by norm_num)
  · exact (c6_pending_timers cTimerView cTime 5 10).2.1 (by norm_num)

/-! ## Claim C7 -/

theorem insertBy_perm {α : Type} (le : α → α → Bool) (x : α) :
    ∀ l, (insertBy le x l).Perm (x :: l) := by
  intro l
  induction l with
  | nil => exact List.Perm.refl _
  | cons y ys ih =>
    unfold insertBy
    by_cases h : le x y = true
    · rw [if_pos h]
    · rw [if_neg h]
      exact (List.Perm.cons y ih).trans (List.Perm.swap x y ys)

theorem isortBy_perm {α : Type} (le : α → α → Bool) :
    ∀ l, (isortBy le l).Perm l := by
  intro l
  induction l with
  | nil => exact List.Perm.refl _
  | cons x xs ih =>
    exact (insertBy_perm le x (isortBy le xs)).trans (List.Perm.cons x ih)

theorem insertBy_sorted_hashLe (x : Hash) :
    ∀ {l : List Hash}, l.Sorted (· ≤ ·) → (insertBy hashLe x l).Sorted (· ≤ ·) := by
  intro l
  induction l with
  | nil => intro _; simp [insertBy]
  | cons y ys ih =>
    intro h
    rw [List.sorted_cons] at h
    obtain ⟨hy, hys⟩ := h
    unfold insertBy
    by_cases hle : hashLe x y = true
    · rw [if_pos hle]
      rw [List.sorted_cons]
      constructor
      · intro b hb
        rcases List.mem_cons.mp hb with rfl | hbys
        · exact of_decide_eq_true hle
        · exact le_trans (of_decide_eq_true hle) (hy b hbys)
      · rw [List.sorted_cons]
        exact ⟨hy, hys⟩
    · rw [if_neg hle]
      rw [List.sorted_cons]
      refine ⟨?_, ih hys⟩
      intro b hb
      have hxy : y ≤ x :=
        Nat.le_of_not_le (fun hc => hle (decide_eq_true hc))
      rcases List.mem_cons.mp ((insertBy_perm hashLe x ys).mem_iff.mp hb) with rfl | hbys
      · exact hxy
      · exact hy b hbys

theorem isortBy_sorted_hashLe : ∀ l : List Hash, (isortBy hashLe l).Sorted (· ≤ ·) := by
  intro l
  induction l with
  | nil => simp [isortBy]
  | cons x xs ih => exact insertBy_sorted_hashLe x ih

theorem isortBy_hashLe_congr {ops ops' : List Hash} (h : ops.Perm ops') :
    isortBy hashLe ops = isortBy hashLe ops' :=
  List.eq_of_perm_of_sorted
    ((isortBy_perm hashLe ops).trans (h.trans (isortBy_perm hashLe ops').symm))
    (isortBy_sorted_hashLe ops) (isortBy_sorted_hashLe ops')

theorem counters_get_cons (k : Hash) (v : Nat) (t : List (Hash × Nat)) (o : Hash) :
    counters_get ((k, v) :: t) o = if k = o then some v else counters_get t o := by
  unfold counters_get
  by_cases h : k = o
  · rw [if_pos h, List.find?_cons_of_pos _ (by simp [h])]
    rfl
  · rw [if_neg h, List.find?_cons_of_neg _ (by simp [h])]

theorem counters_get_map_bump_ne (o o' : Hash) (h : o' ≠ o) :
    ∀ t : List (Hash × Nat),
      counters_get (t.map (fun p => if p.1 = o then (p.1, p.2 + 1) else p)) o' =
        counters_get t o' := by
  intro t
  induction t with
  | nil => rfl
  | cons a t ih =>
    obtain ⟨k, v⟩ := a
    simp only [List.map_cons]
    by_cases hk : k = o
    · rw [if_pos (by simpa using hk)]
      rw [counters_get_cons, counters_get_cons, ih]
      rw [if_neg (by rw [hk]; exact fun hh => h hh.symm),
          if_neg (by rw [hk]; exact fun hh => h hh.symm)]
    · rw [if_neg (by simpa using hk), counters_get_cons, counters_get_cons, ih]

theorem counters_bump_spec : ∀ (cs : List (Hash × Nat)) (o o' : Hash),
    counters_get (counters_bump cs o) o' =
      if o' = o then some ((counters_get cs o).getD 0 + 1) else counters_get cs o' := by
  intro cs
  induction cs with
  | nil =>
    intro o o'
    show counters_get [(o, 1)] o' = _
    rw [counters_get_cons]
    by_cases h : o' = o
    · rw [if_pos h.symm, if_pos h]
      rfl
    · rw [if_neg (fun hh => h hh.symm), if_neg h]
  | cons a t ih =>
    intro o o'
    obtain ⟨k, v⟩ := a
    by_cases hk : k = o
    · subst hk
      have hb : counters_bump ((k, v) :: t) k =
          (k, v + 1) :: t.map (fun p => if p.1 = k then (p.1, p.2 + 1) else p) := by
        unfold counters_bump
        rw [List.find?_cons_of_pos _ (by simp)]
        simp
      rw [hb, counters_get_cons]
      by_cases ho : o' = k
      · rw [if_pos ho.symm, if_pos ho, counters_get_cons, if_pos rfl]
        rfl
      · rw [if_neg (fun hh => ho hh.symm), if_neg ho,
            counters_get_map_bump_ne k o' ho, counters_get_cons,
            if_neg (fun hh => ho hh.symm)]
    · have hb : counters_bump ((k, v) :: t) o = (k, v) :: counters_bump t o := by
        unfold counters_bump
        rw [List.find?_cons_of_neg _ (by simp [hk])]
        cases hf : t.find? (fun p => p.1 = o) with
        | none => simp [hf, List.cons_append]
        | some pr => simp [hf, List.map_cons, hk]
      rw [hb, counters_get_cons]
      by_cases ho : k = o'
      · rw [if_pos ho, if_neg (fun hh => hk (ho.trans hh)),
            counters_get_cons, if_pos ho]
      · rw [if_neg ho, ih o o', counters_get_cons, if_neg hk, counters_get_cons, if_neg ho]

theorem alloc_run_spec (blake3 : List Nat → Nat) :
    ∀ (calls : List Hash) (a : DeterministicIdAllocator) (past : List Hash),
      (∀ o, (counters_get a.counters o).getD 0 = past.count o) →
      alloc_run blake3 a calls = spec_run blake3 a.tick_hash past calls := by
  intro calls
  induction calls with
  | nil => intro a past _; rfl
  | cons c rest ih =>
    intro a past hinv
    have hl : alloc_run blake3 a (c :: rest) =
        node_id_digest blake3 a.tick_hash c ((counters_get a.counters c).getD 0) ::
          alloc_run blake3 { a with counters := counters_bump a.counters c } rest := rfl
    have hr : spec_run blake3 a.tick_hash past (c :: rest) =
        node_id_digest blake3 a.tick_hash c (past.count c) ::
          spec_run blake3 a.tick_hash (past ++ [c]) rest := rfl
    rw [hl, hr, hinv c]
    congr 1
    apply ih
    intro o
    show (counters_get (counters_bump a.counters c) o).getD 0 = (past ++ [c]).count o
    rw [counters_bump_spec]
    by_cases ho : o = c
    · subst ho
      rw [if_pos rfl]
      simp [List.count_append, hinv o]
    · rw [if_neg ho, hinv o]
      simp [List.count_append, List.count_cons, List.count_nil,
        Ne.symm ho]

theorem spec_run_cons (blake3 : List Nat → Nat) (tick : Hash) (past : List Hash)
    (c : Hash) (rest : List Hash) :
    spec_run blake3 tick past (c :: rest) =
      node_id_digest blake3 tick c (past.count c) ::
        spec_run blake3 tick (past ++ [c]) rest := rfl

theorem ids_for_cons_eq (o id : Hash) (calls ids : List Hash) :
    ids_for o (o :: calls) (id :: ids) = id :: ids_for o calls ids := by
  unfold ids_for
  rw [List.zip_cons_cons, List.filter_cons, if_pos (by simp), List.map_cons]

theorem ids_for_cons_ne (o c id : Hash) (h : c ≠ o) (calls ids : List Hash) :
    ids_for o (c :: calls) (id :: ids) = ids_for o calls ids := by
  unfold ids_for
  rw [List.zip_cons_cons, List.filter_cons, if_neg (by simp [h])]

theorem ids_for_spec (blake3 : List Nat → Nat) (tick o : Hash) :
    ∀ (calls past : List Hash),
      ids_for o calls (spec_run blake3 tick past calls) =
        (range_from (past.count o) (calls.count o)).map (node_id_digest blake3 tick o) := by
  intro calls
  induction calls with
  | nil => intro past; rfl
  | cons c rest ih =>
    intro past
    rw [spec_run_cons]
    by_cases hc : c = o
    · subst hc
      rw [ids_for_cons_eq, ih (past ++ [c])]
      have h1 : (past ++ [c]).count c = past.count c + 1 := by
        simp [List.count_append, List.count_cons, List.count_nil]
      have h2 : (c :: rest).count c = rest.count c + 1 := by
        simp [List.count_cons]
      rw [h1, h2]
      rw [show range_from (past.count c) (rest.count c + 1) =
          past.count c :: range_from (past.count c + 1) (rest.count c) from rfl]
      rw [List.map_cons]
    · rw [ids_for_cons_ne o c _ hc, ih (past ++ [c])]
      have h1 : (past ++ [c]).count o = past.count o := by
        simp [List.count_append, List.count_cons, List.count_nil, hc]
      have h2 : (c :: rest).count o = rest.count o := by
        simp [List.count_cons, hc]
      rw [h1, h2]

/-- C7: `new_for_tick` assigns permutation-invariant tick hashes (any
reordering of the operation multiset yields the same `tick_hash`), and
the ID returned for the `k`-th `alloc_node_id` call of operation `o`
(counting that operation's own calls) is exactly
`H((tick_hash, o, k))`, independent of how calls to different
operations are interleaved: the sequence of IDs any `o` receives is
`H((tick_hash, o, 0)), H((tick_hash, o, 1)), …`. -/
theorem c7_deterministic_ids (blake3 : List Nat → Nat) (ops ops' calls : List Hash) (o : Hash) :
    (ops.Perm ops' →
      (new_for_tick blake3 ops).tick_hash = (new_for_tick blake3 ops').tick_hash) ∧
    (alloc_run blake3 (new_for_tick blake3 ops) calls =
      spec_run blake3 (new_for_tick blake3 ops).tick_hash [] calls) ∧
    (ids_for o calls (alloc_run blake3 (new_for_tick blake3 ops) calls) =
      (range_from 0 (calls.count o)).map
        (node_id_digest blake3 (new_for_tick blake3 ops).tick_hash o)) := by
  have hrun : alloc_run blake3 (new_for_tick blake3 ops) calls =
      spec_run blake3 (new_for_tick blake3 ops).tick_hash [] calls := by
    apply alloc_run_spec
    intro o'
    rfl
  refine ⟨?_, hrun, ?_⟩
  · intro h
    unfold new_for_tick
    rw [isortBy_hashLe_congr h]
  · rw [hrun, ids_for_spec]
    rfl

set_option maxRecDepth 10000 in
/-- Witness for C7: a concrete three-operation tick, permuted, and a
concrete interleaved call sequence. -/
theorem c7_deterministic_ids_witness :
    (new_for_tick cBlake [3, 1, 2]).tick_hash = (new_for_tick cBlake [1, 3, 2]).tick_hash ∧
    alloc_run cBlake (new_for_tick cBlake [3, 1, 2]) [1, 2, 1] =
      spec_run cBlake (new_for_tick cBlake [3, 1, 2]).tick_hash [] [1, 2, 1] ∧
    ids_for 1 [1, 2, 1] (alloc_run cBlake (new_for_tick cBlake [3, 1, 2]) [1, 2, 1]) =
      (range_from 0 ([1, 2, 1].count 1)).map
        (node_id_digest cBlake (new_for_tick cBlake [3, 1, 2]).tick_hash 1) :=
  ⟨(c7_deterministic_ids cBlake [3, 1, 2] [1, 3, 2] [1, 2, 1] 1).1 (List.Perm.swap 1 3 [2]),
   (c7_deterministic_ids cBlake [3, 1, 2] [1, 3, 2] [1, 2, 1] 1).2.1,
   (c7_deterministic_ids cBlake [3, 1, 2] [1, 3, 2] [1, 2, 1] 1).2.2⟩

/-! ## Claim C8 -/

/-- **C8** (corrected).  The constructors maintain the claimed invariant:
`new_policy_context`, `new_decision` and `new_commit` always store
`observation_type = none`, and `new_observation` produces kind
`Observation` carrying exactly the tag it was given.  Deserialization
does not: the custom `Deserialize` impl copies `observation_type` into
the envelope verbatim without ever comparing it with the kind (final
conjunct), so a deserialized `PolicyContext` can carry a tag
(`c8_deserialize_counterexample`). -/
theorem c8_observation_type (blake3 : List Nat → Nat) (payload : List Nat)
    (parents evidence extra : List EventId) (policy dpar : EventId)
    (ot agent : Option String) (sig : Option (List Nat)) (sigc : List Nat) :
    (∀ e, new_observation blake3 payload parents ot agent sig = .ok e →
       e.kind = .Observation ∧ e.observation_type = ot) ∧
    (∀ e, new_policy_context blake3 payload parents agent sig = .ok e →
       e.observation_type = none) ∧
    (∀ e, new_decision blake3 payload evidence policy agent sig = .ok e →
       e.observation_type = none) ∧
    (∀ e, new_commit blake3 payload dpar extra agent sigc = .ok e →
       e.observation_type = none) ∧
    (∀ raw env, deserialize_envelope blake3 raw = .ok env →
       env.kind = raw.kind ∧ env.observation_type = raw.observation_type) := by
  refine ⟨?_, ?_, ?_, ?_, ?_⟩
  · intro e he
    simp only [new_observation] at he
    split at he
    · exact absurd he (by simp)
    · injection he with h
      subst h
      exact ⟨rfl, rfl⟩
  · intro e he
    simp only [new_policy_context] at he
    split at he
    · exact absurd he (by simp)
    · injection he with h
      subst h
      rfl
  · intro e he
    simp only [new_decision] at he
    split at he
    · exact absurd he (by simp)
    · split at he
      · exact absurd he (by simp)
      · split at he
        · exact absurd he (by simp)
        · injection he with h
          subst h
          rfl
  · intro e he
    simp only [new_commit] at he
    split at he
    · exact absurd he (by simp)
    · injection he with h
      subst h
      rfl
  · intro raw env h
    unfold deserialize_envelope at h
    split at h
    · exact absurd h (by simp)
    split at h
    · exact absurd h (by simp)
    split at h
    · exact absurd h (by simp)
    split at h
    · exact absurd h (by simp)
    split at h
    · exact absurd h (by simp)
    split at h
    · exact absurd h (by simp)
    split at h
    · exact absurd h (by simp)
    injection h with h
    subst h
    exact ⟨rfl, rfl⟩

set_option maxRecDepth 10000 in
/-- Witness for C8: the concretely constructed policy context carries no
observation type, the concrete observation has kind `Observation`, and a
deserialized raw envelope keeps its fields. -/
theorem c8_observation_type_witness :
    cPolicy.observation_type = none ∧ cObs.kind = .Observation := by
  have h7 := c8_observation_type cBlake [7] [] [] [] 0 0 none none none []
  have h8 := c8_observation_type cBlake [8] [] [] [] 0 0 none none none []
  exact ⟨h7.2.1 cPolicy (by decide), (h8.1 cObs (by decide)).1⟩

set_option maxRecDepth 10000 in
/-- Counterexample for C8 as stated: `deserialize_envelope` accepts a raw
envelope of kind `PolicyContext` whose `observation_type` is `some "X"`,
returning the tagged envelope unchanged. -/
theorem c8_deserialize_counterexample :
    deserialize_envelope cBlake cRawTagged =
      .ok { event_id := cRawTagged.event_id, kind := .PolicyContext,
            payload := [7], parents := [], agent_id := none,
            signature := none, observation_type := some "X" } := by decide

/-! ## Claim C9 -/

theorem compute_hash_hash_irrel (blake3 : List Nat → Nat) (s : DeltaSpec) (h : Hash) :
    DeltaSpec.compute_hash blake3 { s with hash := h } =
      DeltaSpec.compute_hash blake3 s := rfl

theorem finalize_spec (blake3 : List Nat → Nat) (s0 s : DeltaSpec)
    (h : DeltaSpec.finalize blake3 s0 = .ok s) :
    s.compute_hash blake3 = .ok s.hash := by
  unfold DeltaSpec.finalize at h
  cases hch : DeltaSpec.compute_hash blake3 s0 with
  | error e =>
    rw [hch] at h
    have h2 : (Except.error e : Except CanonicalError DeltaSpec) = .ok s := h
    exact absurd h2 (by simp)
  | ok hh =>
    rw [hch] at h
    have h2 : (Except.ok { s0 with hash := hh } : Except CanonicalError DeltaSpec) =
        .ok s := h
    injection h2 with h2
    subst h2
    exact hch

/-- **C9**. Every `DeltaSpec` returned by a constructor hashes its own
canonical `(kind, description)` encoding — `compute_hash` reads only
those two fields, never the `hash` field, so the stored hash verifies
against the recomputed one — and `new_trust_policy` rejects an empty
trust-root list with an `InvalidStructure` error. -/
theorem c9_delta_constructors (blake3 : List Nat → Nat) (np : Hash)
    (desc : String) (roots : List String) (ins : List Nat)
    (del : List EventId) (modi : List (EventId × Nat)) :
    (∀ s, new_scheduler_policy blake3 np desc = .ok s →
       s.compute_hash blake3 = .ok s.hash) ∧
    (∀ s, new_clock_policy blake3 np desc = .ok s →
       s.compute_hash blake3 = .ok s.hash) ∧
    (∀ s, new_input_mutation blake3 ins del modi desc = .ok s →
       s.compute_hash blake3 = .ok s.hash) ∧
    (∀ s, new_trust_policy blake3 roots desc = .ok s →
       s.compute_hash blake3 = .ok s.hash) ∧
    (roots = [] →
       new_trust_policy blake3 roots desc =
         .error (.InvalidStructure
           "TrustPolicy cannot have empty new_trust_roots (would mean trust no one)")) := by
  refine ⟨?_, ?_, ?_, ?_, ?_⟩
  · intro s hs
    exact finalize_spec blake3 _ s hs
  · intro s hs
    exact finalize_spec blake3 _ s hs
  · intro s hs
    exact finalize_spec blake3 _ s hs
  · intro s hs
    simp only [new_trust_policy] at hs
    split at hs
    · exact absurd hs (by simp)
    · split at hs
      · rename_i spec hf
        injection hs with hq
        subst hq
        exact finalize_spec blake3 _ _ hf
      · exact absurd hs (by simp)
  · intro hr
    subst hr
    rfl

set_option maxRecDepth 10000 in
/-- Witness for C9: the concrete scheduler-policy delta verifies its
hash, and an empty trust-root list is rejected. -/
theorem c9_delta_constructors_witness :
    cDelta.compute_hash cBlake = .ok cDelta.hash ∧
    new_trust_policy cBlake [] "d" =
      .error (.InvalidStructure
        "TrustPolicy cannot have empty new_trust_roots (would mean trust no one)") := by
  have h := c9_delta_constructors cBlake 5 "d" [] [] [] []
  exact ⟨h.1 cDelta (by decide), h.2.2.2.2 rfl⟩

/-! ## Claim C10 -/

theorem hset_insert_mem (s : List Hash) (x y : Hash) :
    y ∈ hset_insert s x ↔ y = x ∨ y ∈ s := by
  unfold hset_insert
  by_cases h : s.contains x
  · rw [if_pos h]
    constructor
    · exact fun hy => Or.inr hy
    · rintro (rfl | hy)
      · exact List.elem_iff.mp h
      · exact hy
  · rw [if_neg h]
    exact List.mem_cons

theorem timer_apply_facts (v v' : TimerView) (e : EventEnvelope)
    (h : v.apply_event e = .ok v') :
    (∀ x, x ∈ v.fired_ids → x ∈ v'.fired_ids) ∧
    (∀ f, e.kind = .Decision → to_timer_fire e.payload = some f →
       f.request_id ∈ v'.fired_ids) := by
  unfold TimerView.apply_event at h
  split at h
  · exact absurd h (by simp)
  · rename_i v1 heq
    have h1 : v1.fired_ids = v.fired_ids := by
      split at heq
      · split at heq
        · exact absurd heq (by simp)
        · injection heq with hq
          subst hq
          rfl
      · injection heq with hq
        subst hq
        rfl
    split at h
    · split at h
      · rename_i fire hf
        injection h with hq
        subst hq
        constructor
        · intro x hx
          exact (hset_insert_mem _ _ _).mpr (Or.inr (h1 ▸ hx))
        · intro f _ hff
          rw [hf] at hff
          injection hff with hff
          subst hff
          exact (hset_insert_mem _ _ _).mpr (Or.inl rfl)
      · rename_i hf
        injection h with hq
        subst hq
        constructor
        · intro x hx
          rw [h1]
          exact hx
        · intro f _ hff
          rw [hf] at hff
          exact absurd hff (by simp)
    · rename_i hk
      injection h with hq
      subst hq
      constructor
      · intro x hx
        rw [h1]
        exact hx
      · intro f hk2 _
        exact absurd hk2 hk

theorem timer_fold_fired_mono :
    ∀ (events : List EventEnvelope) (v view : TimerView),
      events.foldlM TimerView.apply_event v = .ok view →
      ∀ x, x ∈ v.fired_ids → x ∈ view.fired_ids := by
  intro events
  induction events with
  | nil =>
    intro v view h x hx
    injection h with h
    subst h
    exact hx
  | cons e rest ih =>
    intro v view h x hx
    rw [List.foldlM_cons] at h
    cases ha : v.apply_event e with
    | error er =>
      rw [ha] at h
      have h2 : (Except.error er : Except TimerError TimerView) = .ok view := h
      exact absurd h2 (by simp)
    | ok v1 =>
      rw [ha] at h
      exact ih v1 view h x ((timer_apply_facts v v1 e ha).1 x hx)

theorem timer_fold_fires (events : List EventEnvelope) :
    ∀ (v view : TimerView) (e : EventEnvelope) (f : TimerFire),
      events.foldlM TimerView.apply_event v = .ok view →
      e ∈ events → e.kind = .Decision → to_timer_fire e.payload = some f →
      f.request_id ∈ view.fired_ids := by
  induction events with
  | nil =>
    intro v view e f _ he
    exact absurd he (by simp)
  | cons a rest ih =>
    intro v view e f h he hk hf
    rw [List.foldlM_cons] at h
    cases ha : v.apply_event a with
    | error er =>
      rw [ha] at h
      have h2 : (Except.error er : Except TimerError TimerView) = .ok view := h
      exact absurd h2 (by simp)
    | ok v1 =>
      rw [ha] at h
      rcases List.mem_cons.mp he with rfl | hmem
      · exact timer_fold_fired_mono rest v1 view h f.request_id
          ((timer_apply_facts v v1 e ha).2 f hk hf)
      · exact ih v1 view e f h hmem hk hf

theorem pending_not_fired (v : TimerView) (t : Time) (r : TimerRequestRecord)
    (h : r ∈ v.pending_timers t) : r.request.request_id ∉ v.fired_ids := by
  unfold TimerView.pending_timers at h
  rw [pending_loop_eq_filter] at h
  have hp := List.of_mem_filter h
  simp only [Bool.and_eq_true, Bool.not_eq_true'] at hp
  intro hmem
  have hc : v.fired_ids.contains r.request.request_id = true := List.elem_iff.mpr hmem
  rw [hp.1] at hc
  exact Bool.false_ne_true hc

/-- **C10**.  If a Decision event whose payload decodes as a `TimerFire`
for request id `R` appears anywhere in a sequence folded into a
`TimerView`, then no record with request id `R` is pending at any
current time — whether the fire was applied before or after the
observation carrying the request, since `fired_ids` only grows along the
fold and `pending_timers` filters it out. -/
theorem c10_fired_never_pending (events : List EventEnvelope)
    (view : TimerView) (e : EventEnvelope) (f : TimerFire) (t : Time)
    (r : TimerRequestRecord)
    (hfold : events.foldlM TimerView.apply_event TimerView.new = .ok view)
    (he : e ∈ events) (hk : e.kind = .Decision)
    (hf : to_timer_fire e.payload = some f)
    (hr : r ∈ view.pending_timers t) :
    r.request.request_id ≠ f.request_id := by
  intro hrf
  have hfired : f.request_id ∈ view.fired_ids :=
    timer_fold_fires events TimerView.new view e f hfold he hk hf
  exact pending_not_fired view t r hr (hrf ▸ hfired)

set_option maxRecDepth 10000 in
/-- Witness for C10: after requesting timers 42 and 43 and firing 43,
the still-pending record for request 42 cannot carry the fired id 43. -/
theorem c10_fired_never_pending_witness :
    cPendingRecord.request.request_id ≠ (43 : Hash) :=
  c10_fired_never_pending [cObsTimer, cObsTimer43, cDecFire43] cTimerFolded
    cDecFire43 { request_id := 43, fired_at_ns := 15 } cTime cPendingRecord
    (by decide) (by decide) (by decide) (by decide) (by decide)
